import Mathlib

/-!
Battle exchange evaluation (`AI/BattleAI/BattleExchangeVariant.cpp`)

A shallow embedding of the exchange accumulator (`BattleExchangeVariant`) and of the
exchange evaluator (`BattleExchangeEvaluator`).

Conventions of the embedding

* `int64_t` values are `Int` (signed overflow is undefined behaviour in the source and is
  not modelled); `uint64_t` values are `Nat`, and every conversion of a signed value to
  `uint64_t` and every unsigned subtraction is written with an explicit `% 2 ^ 64`.
* A `double` is the rational number it denotes.  Every conversion of an integer to
  `double` and every `double` operation of `calculateDpsReduce` is the exact result
  rounded to the nearest binary64 value, ties to even (`roundDouble`); the final cast
  `(int64_t)` truncates towards zero.  No operation of that expression can overflow the
  binary64 range, whose infinities are therefore not modelled.
* A `HypotheticBattle` is the map from unit ids to unit projections; `getForUpdate` is
  a lookup and a write through the returned `shared_ptr` is a point update of that map.
* Everything the file calls but does not define (the battle callback, the unit
  accessors, the reachability computation) is a field of the structure `Rules`;
  the general statements are proved for every value of `Rules`, the concrete ones are
  evaluated in the sample battle defined below.
-/

namespace BattleAI

/-! ## Data model -/

/-- A hex position of the battlefield (`BattleHex`). -/
abbrev BattleHex := Int

/-- The identity of a unit (`unitId()`). -/
abbrev UnitId := Nat

/-- A damage range `(first, second)` (`TDmgRange`). -/
abbrev TDmgRange := Int × Int

/-- The health record of a unit projection, copied as one value by the source. -/
structure CHealth where
  firstHPleft : Int
  fullUnits : Int
  deriving DecidableEq, Repr

/-- The mutable part of a unit projection (`StackWithBonuses`): exactly the members the
source reads or writes. -/
structure UnitState where
  health : CHealth
  shots : Int
  counterAttacks : Int
  movedThisRound : Bool
  waiting : Bool
  waitedThisTurn : Bool
  position : BattleHex
  deriving DecidableEq, Repr

/-- A `const battle::Unit *`: the address, compared by `==`, `vstd::contains` and
`vstd::removeDuplicates`. -/
structure UnitPtr where
  addr : Nat
  deriving DecidableEq, Repr

/-- The simulation state `HypotheticBattle`: the current projection of every unit. -/
abbrev HypotheticBattle := UnitId → UnitState

/-- Accessibility of a hex (`EAccessibility`); only `ALIVE_STACK` is tested. -/
inductive EAccessibility where
  | ACCESSIBLE
  | ALIVE_STACK
  | OBSTACLE
  | OTHER
  deriving DecidableEq, Repr

/-- The answer of `getReachability`. -/
structure ReachabilityInfo where
  distances : BattleHex → Nat
  accessibility : BattleHex → EAccessibility

/-- The attack of a candidate (`BattleAttackInfo` and the position it is made from). -/
structure BattleAttackInfo where
  attacker : UnitPtr
  defender : UnitPtr
  shooting : Bool
  attackerPos : BattleHex
  deriving DecidableEq, Repr

/-- A candidate attack (`AttackPossibility`).  `attackValue` is the value its method
`attackValue()` returns; `attackerState` and `affectedUnits` are the precomputed
projections, each with the id it answers to `unitId()`. -/
structure AttackPossibility where
  attack : BattleAttackInfo
  fromHex : BattleHex
  dest : BattleHex
  attackerState : UnitId × UnitState
  affectedUnits : List (UnitId × UnitState)
  attackValue : Int
  deriving DecidableEq, Repr

/-- The collaborators of the file: unit accessors, the battle callback `cb` and the
queries of a `HypotheticBattle`.  None of them is defined in the file. -/
structure Rules where
  /-- `unit->unitId()` -/
  unitId : UnitPtr → UnitId
  /-- `unit->alive()` -/
  alive : UnitState → Bool
  /-- `unit->ableToRetaliate()` -/
  ableToRetaliate : UnitState → Bool
  /-- `unit->hasBonus(selectorBlocksRetaliation, ...)` -/
  blocksRetaliation : UnitState → Bool
  /-- `unit->canShoot()` -/
  canShoot : UnitState → Bool
  /-- `unit->waited()` -/
  waited : UnitState → Bool
  /-- `unit->MaxHealth()` -/
  MaxHealth : UnitState → Nat
  /-- `unit->getFirstHPleft()` -/
  getFirstHPleft : UnitState → Int
  /-- `unit->getCount()` -/
  getCount : UnitState → Int
  /-- `unit->getAvailableHealth()` -/
  getAvailableHealth : UnitState → Int
  /-- `unit->getTotalAttacks(shooting)` -/
  getTotalAttacks : UnitState → Bool → Int
  /-- `unit->damage(amount)` -/
  damage : UnitState → Int → UnitState
  /-- `unit->afterAttack(ranged, counter)` -/
  afterAttack : UnitState → Bool → Bool → UnitState
  /-- `cb->battleEstimateDamage(BattleAttackInfo(attacker, defender, shooting), &retaliation)`:
  the damage range and the retaliation range. -/
  battleEstimateDamage : UnitState → UnitState → Bool → TDmgRange × TDmgRange
  /-- `cb->battleCanShoot(unit)` -/
  battleCanShoot : UnitState → Bool
  /-- `exchangeBattle.battleCanShoot(unit)` -/
  hbCanShoot : HypotheticBattle → UnitState → Bool
  /-- `cb->battleMatchOwner(a, b, exact)` -/
  battleMatchOwner : UnitPtr → UnitPtr → Bool → Bool
  /-- `cb->battleGetUnitByPos(hex)` -/
  battleGetUnitByPos : BattleHex → Option UnitPtr
  /-- `turnBattle.battleGetUnitByPos(hex)` -/
  hbGetUnitByPos : HypotheticBattle → BattleHex → Option UnitPtr
  /-- `hb.battleGetTurnOrder(turnOrder, 1000, 2)` on an empty `turnOrder` -/
  battleGetTurnOrder : HypotheticBattle → List (List UnitPtr)
  /-- `turnBattle.getReachability(unit)` -/
  getReachability : HypotheticBattle → UnitPtr → ReachabilityInfo
  /-- `unit->Speed(turn)` -/
  Speed : UnitPtr → Nat → Nat
  /-- `unit->getHexes()` -/
  getHexes : UnitPtr → List BattleHex
  /-- `unit->getSurroundingHexes()` -/
  getSurroundingHexes : UnitPtr → List BattleHex
  /-- `unit->occupiedHex(pos)` -/
  occupiedHex : UnitPtr → BattleHex → BattleHex
  /-- `unit->doubleWide()` -/
  doubleWide : UnitPtr → Bool
  /-- `hex.neighbouringTiles()` -/
  neighbouringTiles : BattleHex → List BattleHex
  /-- the number of hexes: `hex.isValid()` holds for `0 ≤ hex < BFIELD_SIZE` -/
  BFIELD_SIZE : Nat
  /-- the projection a `const battle::Unit *` points to -/
  deref : UnitPtr → UnitState
  /-- `HypotheticBattle(env.get(), cb)`: a fresh simulation over the real battle -/
  newBattle : HypotheticBattle
  /-- the constant `EvaluationResult::INEFFECTIVE_SCORE` -/
  INEFFECTIVE_SCORE : Int
  /-- the score the constructor `EvaluationResult(ap)` gives the default action -/
  defaultScore : AttackPossibility → Int

/-- An entry of the ledger (`AttackerValue`); a fresh entry is `(0, false)`. -/
structure AttackerValue where
  value : Int
  isRetalitated : Bool
  deriving DecidableEq, Repr

/-- The exchange accumulator: the running score and the ledger `attackerValue`, a
`std::map` whose missing entries read as the default entry. -/
structure BattleExchangeVariant where
  dpsScore : Int
  attackerValue : UnitId → AttackerValue

/-- The constructor `BattleExchangeVariant()`: score 0 and an empty ledger. -/
def BattleExchangeVariant.init : BattleExchangeVariant :=
  { dpsScore := 0, attackerValue := fun _ => { value := 0, isRetalitated := false } }

/-- `getScore()` -/
def BattleExchangeVariant.getScore (v : BattleExchangeVariant) : Int := v.dpsScore

/-! ## Machine arithmetic -/

/-- Conversion of a signed integer to `uint64_t`. -/
def toU64 (x : Int) : Nat := (x % 2 ^ 64).toNat

/-- Subtraction of two `uint64_t` values. -/
def subU64 (a b : Nat) : Nat := (a + 2 ^ 64 - b % 2 ^ 64) % 2 ^ 64

/-- Truncation of a rational number towards zero. -/
def truncToInt (q : ℚ) : Int := Int.tdiv q.num q.den

/-- The integer nearest to `m`, the even one of the two when `m` lies half way. -/
def roundHalfEven (m : ℚ) : Int :=
  let fl := m.num / (m.den : Int)
  let rem := m.num % (m.den : Int)
  if 2 * rem < (m.den : Int) then fl
  else if (m.den : Int) < 2 * rem then fl + 1
  else if fl % 2 = 0 then fl else fl + 1

/-- One step of the binary search of `floorLog2`. -/
def log2Step (N e b : Nat) : Nat := if 2 ^ (e + b) ≤ N then e + b else e

/-- The position of the leading bit of `N`, for `1 ≤ N < 2 ^ 2048`; 0 for `N = 0`. -/
def floorLog2 (N : Nat) : Nat :=
  [1024, 512, 256, 128, 64, 32, 16, 8, 4, 2, 1].foldl (log2Step N) 0

/-- The binary64 value nearest to `q`, ties to even.  The values of binary64 around `q`
are the multiples of `2 ^ t / 2 ^ 1074`, where `t` is the position of the leading bit of
`|q| * 2 ^ 1022` (`t = 0` in the subnormal range): 53 significant bits from the exponent
`-1022` on, steps of `2 ^ (-1074)` below. -/
def roundDouble (q : ℚ) : ℚ :=
  let a := |q|
  let t := floorLog2 (a * 2 ^ 1022).floor.toNat
  let r : ℚ := (roundHalfEven (a * 2 ^ 1074 / 2 ^ t) : ℚ) * 2 ^ t / 2 ^ 1074
  if q < 0 then -r else r

/-- The cast `(int64_t)` of a finite `double`: truncation towards zero; a value outside
the range of `int64_t` has no defined result and gives `INT64_MIN`, as the x86-64
conversion instruction does. -/
def castInt64 (x : ℚ) : Int :=
  if -(2 ^ 63) ≤ truncToInt x ∧ truncToInt x < 2 ^ 63 then truncToInt x else -(2 ^ 63)

/-- `vstd::amin(a, b)`: `a` becomes `b` unless `a <= b`. -/
def amin (a b : Nat) : Nat := if a ≤ b then a else b

/-- The midpoint `(range.first + range.second) / 2` of a damage range. -/
def midpoint (r : TDmgRange) : Int := Int.tdiv (r.1 + r.2) 2

/-! ## `BattleExchangeVariant::calculateDpsReduce` -/

/-- `enemiesKilled` of `calculateDpsReduce`, for the clamped damage. -/
def enemiesKilled (R : Rules) (defender : UnitState) (damageDealt : Nat) : Nat :=
  damageDealt / R.MaxHealth defender
    + (if damageDealt % R.MaxHealth defender ≥ toU64 (R.getFirstHPleft defender) then 1 else 0)

/-- The operand `(damageDealt - defender->getFirstHPleft()) % defender->MaxHealth()`:
`damageDealt` is `uint64_t`, so the difference is taken modulo `2 ^ 64`. -/
def fractionalKill (R : Rules) (defender : UnitState) (damageDealt : Nat) : Nat :=
  subU64 damageDealt (toU64 (R.getFirstHPleft defender)) % R.MaxHealth defender

/-- The returned expression of `calculateDpsReduce` (lines 141-142), evaluated left to
right in `double`: `product` is the `uint64_t` value `enemyDps * enemiesKilled`, `rest`
the `uint64_t` value `(damageDealt - getFirstHPleft()) % MaxHealth()`; each integer
operand is converted to `double` and each operation rounds.  For `count = 0` the double
is infinite or not a number and its cast gives `INT64_MIN`; for `maxHealth = 0` the
source divides integers by zero and has no result, for which `INT64_MIN` stands here
too. -/
def dpsExpression (enemyDps : Int) (product : Nat) (count : Int) (rest maxHealth : Nat) : Int :=
  if count = 0 ∨ maxHealth = 0 then -(2 ^ 63)
  else
    castInt64
      (roundDouble
        (roundDouble (roundDouble (product : ℚ) / roundDouble (count : ℚ))
          + roundDouble
              (roundDouble
                  (roundDouble (roundDouble (enemyDps : ℚ) / roundDouble (count : ℚ))
                    * roundDouble (rest : ℚ))
                / roundDouble (maxHealth : ℚ))))

/-- `BattleExchangeVariant::calculateDpsReduce(attacker, defender, damageDealt, cb)`. -/
def calculateDpsReduce (R : Rules) (attacker defender : UnitState) (damageDealt : Nat) : Int :=
  let damageDealt := amin damageDealt (toU64 (R.getAvailableHealth defender))
  let enemyDamageBeforeAttack := (R.battleEstimateDamage defender attacker (R.canShoot defender)).1
  let enemiesKilled := enemiesKilled R defender damageDealt
  let enemyDps := midpoint enemyDamageBeforeAttack
  dpsExpression enemyDps (toU64 (enemyDps * enemiesKilled)) (R.getCount defender)
    (fractionalKill R defender damageDealt) (R.MaxHealth defender)

/-! ## `BattleExchangeVariant::trackAttack` -/

/-- What a call of `trackAttack` leaves behind: the returned value, the accumulator and
the simulation state. -/
structure TrackResult where
  score : Int
  v : BattleExchangeVariant
  state : HypotheticBattle

/-- Writing `f` through `state->getForUpdate(id)`. -/
def HypotheticBattle.modify (hb : HypotheticBattle) (id : UnitId) (f : UnitState → UnitState) :
    HypotheticBattle :=
  Function.update hb id (f (hb id))

/-- Writing `f` to the ledger entry `attackerValue[id]`. -/
def BattleExchangeVariant.modifyValue (v : BattleExchangeVariant) (id : UnitId)
    (f : AttackerValue → AttackerValue) : BattleExchangeVariant :=
  { v with attackerValue := Function.update v.attackerValue id (f (v.attackerValue id)) }

/-- The loop of `trackAttack(ap, state)` copying the projections into the state. -/
def copyAffected (state : HypotheticBattle) : List (UnitId × UnitState) → HypotheticBattle
  | [] => state
  | affectedUnit :: rest =>
    copyAffected
      (state.modify affectedUnit.1 fun unitToUpdate =>
        { unitToUpdate with
          health := affectedUnit.2.health
          shots := affectedUnit.2.shots
          counterAttacks := affectedUnit.2.counterAttacks
          movedThisRound := affectedUnit.2.movedThisRound })
      rest

/-- `BattleExchangeVariant::trackAttack(const AttackPossibility & ap, HypotheticBattle * state)`. -/
def trackAttackAp (v : BattleExchangeVariant) (ap : AttackPossibility) (state : HypotheticBattle) :
    TrackResult :=
  let affectedUnits := ap.affectedUnits ++ [ap.attackerState]
  let state := copyAffected state affectedUnits
  let attackValue := ap.attackValue
  { score := attackValue
    v := { v with dpsScore := v.dpsScore + attackValue }
    state := state }

/-- The four members `trackAttack(ap, state)` copies from a projection into a unit. -/
def copyProjection (unitToUpdate affectedUnit : UnitState) : UnitState :=
  { unitToUpdate with
    health := affectedUnit.health
    shots := affectedUnit.shots
    counterAttacks := affectedUnit.counterAttacks
    movedThisRound := affectedUnit.movedThisRound }

/-- The candidate's precomputed projection of the unit `id`: its entry among the affected
units followed by the attacker (the one written last, should the id occur twice). -/
def AttackPossibility.projectionOf (ap : AttackPossibility) (id : UnitId) : Option UnitState :=
  ((ap.affectedUnits ++ [ap.attackerState]).reverse.find? fun e => e.1 == id).map fun e => e.2

/-- The state transition `defender->damage(attackDamage); attacker->afterAttack(shooting, false)`
of a committed attack. -/
def applyAttack (R : Rules) (hb : HypotheticBattle) (attacker defender : UnitId)
    (shooting : Bool) (attackDamage : Int) : HypotheticBattle :=
  let hb := hb.modify defender fun d => R.damage d attackDamage
  hb.modify attacker fun a => R.afterAttack a shooting false

/-- The first `if(!evaluateOnly)` block of the generic `trackAttack`. -/
def commitAttack (R : Rules) (v : BattleExchangeVariant) (hb : HypotheticBattle)
    (attacker defender : UnitId) (shooting isOurAttack : Bool)
    (attackDamage defenderDpsReduce : Int) : BattleExchangeVariant × HypotheticBattle :=
  let v :=
    if isOurAttack then
      ({ v with dpsScore := v.dpsScore + defenderDpsReduce }).modifyValue attacker
        fun e => { e with value := e.value + defenderDpsReduce }
    else
      { v with dpsScore := v.dpsScore - defenderDpsReduce }
  (v, applyAttack R hb attacker defender shooting attackDamage)

/-- The second `if(!evaluateOnly)` block of the generic `trackAttack` (the retaliation). -/
def commitRetaliation (R : Rules) (v : BattleExchangeVariant) (hb : HypotheticBattle)
    (attacker defender : UnitId) (isOurAttack : Bool)
    (retalitationDamage attackerDpsReduce : Int) : BattleExchangeVariant × HypotheticBattle :=
  let v :=
    if isOurAttack then
      ({ v with dpsScore := v.dpsScore - attackerDpsReduce }).modifyValue attacker
        fun e => { e with isRetalitated := true }
    else
      ({ v with dpsScore := v.dpsScore + attackerDpsReduce }).modifyValue defender
        fun e => { e with value := e.value + attackerDpsReduce }
  let hb := hb.modify attacker fun a => R.damage a retalitationDamage
  let hb := hb.modify defender fun d => R.afterAttack d false true
  (v, hb)

/-- The generic `BattleExchangeVariant::trackAttack(attacker, defender, shooting,
isOurAttack, cb, evaluateOnly)`; `attacker` and `defender` are the ids of the two
projections of `hb` the shared pointers refer to. -/
def trackAttack (R : Rules) (v : BattleExchangeVariant) (hb : HypotheticBattle)
    (attacker defender : UnitId) (shooting isOurAttack evaluateOnly : Bool) : TrackResult :=
  let counterAttacksBlocked := R.blocksRetaliation (hb attacker)
  let est := R.battleEstimateDamage (hb attacker) (hb defender) shooting
  let attack := est.1
  let retalitation := est.2
  let attackDamage := midpoint attack
  let defenderDpsReduce := calculateDpsReduce R (hb attacker) (hb defender) (toU64 attackDamage)
  let s1 : BattleExchangeVariant × HypotheticBattle :=
    if !evaluateOnly then
      commitAttack R v hb attacker defender shooting isOurAttack attackDamage defenderDpsReduce
    else (v, hb)
  if R.alive (s1.2 defender) && R.ableToRetaliate (s1.2 defender) && !counterAttacksBlocked
      && !shooting then
    if retalitation.2 ≠ 0 then
      let retalitationDamage := midpoint retalitation
      let attackerDpsReduce :=
        calculateDpsReduce R (s1.2 defender) (s1.2 attacker) (toU64 retalitationDamage)
      let s2 : BattleExchangeVariant × HypotheticBattle :=
        if !evaluateOnly then
          commitRetaliation R s1.1 s1.2 attacker defender isOurAttack retalitationDamage
            attackerDpsReduce
        else s1
      { score := defenderDpsReduce - attackerDpsReduce, v := s2.1, state := s2.2 }
    else
      { score := defenderDpsReduce - 0, v := s1.1, state := s1.2 }
  else
    { score := defenderDpsReduce - 0, v := s1.1, state := s1.2 }

/-! ## Helpers of `vstd` -/

/-- `vstd::maxElementByFun(rng, vf)`: the first element with the largest value, none for
an empty range (the iterator `end()`). -/
def maxElementByFun {α : Type} (vf : α → Int) : List α → Option α
  | [] => none
  | x :: xs => some (xs.foldl (fun largest y => if vf largest < vf y then y else largest) x)

/-- `vstd::minElementByFun(rng, vf)`: the first element with the smallest value, none for
an empty range. -/
def minElementByFun {α : Type} (vf : α → Int) : List α → Option α
  | [] => none
  | x :: xs => some (xs.foldl (fun smallest y => if vf y < vf smallest then y else smallest) x)

/-- `vstd::removeDuplicates(vec)` on a vector of pointers: `boost::sort` by address, then
`std::unique`. -/
def removeDuplicates (vec : List UnitPtr) : List UnitPtr :=
  (vec.insertionSort fun a b => a.addr ≤ b.addr).destutter (· ≠ ·)

/-- The order on addresses used by `removeDuplicates` is total. -/
instance addrLeTotal : IsTotal UnitPtr (fun x y : UnitPtr => x.addr ≤ y.addr) :=
  ⟨fun x y => Nat.le_total x.addr y.addr⟩

/-- The order on addresses used by `removeDuplicates` is transitive. -/
instance addrLeTrans : IsTrans UnitPtr (fun x y : UnitPtr => x.addr ≤ y.addr) :=
  ⟨fun _ _ _ h1 h2 => Nat.le_trans h1 h2⟩

/-- `boost::sort(rng, less)`.  The order of elements that `less` does not separate is
left open by the library; the model keeps them in their order of arrival. -/
def boostSort {α : Type} (less : α → α → Bool) (rng : List α) : List α :=
  rng.insertionSort fun a b => less b a = false

/-! ## `BattleExchangeVariant::adjustPositions` -/

/-- The comparator handed to `boost::sort` in `adjustPositions`. -/
def attackerLess (R : Rules) (v : BattleExchangeVariant) (u1 u2 : UnitPtr) : Bool :=
  if (v.attackerValue (R.unitId u1)).isRetalitated && !(v.attackerValue (R.unitId u2)).isRetalitated then
    true
  else if (v.attackerValue (R.unitId u2)).isRetalitated
      && !(v.attackerValue (R.unitId u1)).isRetalitated then
    false
  else
    decide ((v.attackerValue (R.unitId u1)).value > (v.attackerValue (R.unitId u2)).value)

/-- The value function handed to `vstd::minElementByFun` in `adjustPositions`. -/
def positionScore (R : Rules) (reachabilityMap : BattleHex → List UnitPtr)
    (hexes : List BattleHex) (unit : UnitPtr) (h : BattleHex) : Int :=
  let score : Nat := if unit ∈ reachabilityMap h then (reachabilityMap h).length else 1000
  if R.doubleWide unit then
    let backHex := R.occupiedHex unit h
    if backHex ∈ hexes then ((score + (reachabilityMap backHex).length : Nat) : Int) else (score : Int)
  else (score : Int)

/-- The state of the loop over the attackers in `adjustPositions`. -/
structure PositionState where
  hexes : List BattleHex
  notRealizedDps : Int
  deriving DecidableEq, Repr

/-- Whether `unit` can reach one of the hexes (`vstd::contains_if(hexes, ...)`). -/
def hasReachableHex (reachabilityMap : BattleHex → List UnitPtr) (hexes : List BattleHex)
    (unit : UnitPtr) : Bool :=
  hexes.any fun h => decide (unit ∈ reachabilityMap h)

/-- One round of the loop over the attackers in `adjustPositions`. -/
def positionStep (R : Rules) (v : BattleExchangeVariant) (ap : AttackPossibility)
    (reachabilityMap : BattleHex → List UnitPtr) (st : PositionState) (unit : UnitPtr) :
    PositionState :=
  if R.unitId unit = R.unitId ap.attack.attacker then st
  else if !hasReachableHex reachabilityMap st.hexes unit then
    { st with notRealizedDps := st.notRealizedDps + (v.attackerValue (R.unitId unit)).value }
  else
    match minElementByFun (positionScore R reachabilityMap st.hexes unit) st.hexes with
    | some desiredPosition => { st with hexes := st.hexes.erase desiredPosition }
    | none => st

/-- The hexes `adjustPositions` starts from: the hexes around the defender, without the
hex the candidate attacks from and the attacker's other hex when the attack is melee. -/
def freeHexes (R : Rules) (ap : AttackPossibility) : List BattleHex :=
  let hexes := R.getSurroundingHexes ap.attack.defender
  if !ap.attack.shooting then
    (hexes.erase ap.fromHex).erase (R.occupiedHex ap.attack.attacker ap.attack.attackerPos)
  else hexes

/-- The loop over the attackers in `adjustPositions`, from the sorted attackers on. -/
def positionLoop (R : Rules) (v : BattleExchangeVariant) (attackers : List UnitPtr)
    (ap : AttackPossibility) (reachabilityMap : BattleHex → List UnitPtr) : PositionState :=
  (boostSort (attackerLess R v) attackers).foldl (positionStep R v ap reachabilityMap)
    { hexes := freeHexes R ap, notRealizedDps := 0 }

/-- `BattleExchangeVariant::adjustPositions(attackers, ap, reachabilityMap)`. -/
def adjustPositions (R : Rules) (v : BattleExchangeVariant) (attackers : List UnitPtr)
    (ap : AttackPossibility) (reachabilityMap : BattleHex → List UnitPtr) :
    BattleExchangeVariant :=
  let notRealizedDps := (positionLoop R v attackers ap reachabilityMap).notRealizedDps
  if notRealizedDps > ap.attackValue
      ∧ notRealizedDps > (v.attackerValue (R.unitId ap.attack.attacker)).value then
    { v with dpsScore := R.INEFFECTIVE_SCORE }
  else v

/-- The unrealized tally as the specification words it: the ledger values of the listed
attackers, other than the candidate's attacker, that have no reachable hex left among
`hexes`; an attacker that has one takes its preferred hex out of `hexes`. -/
def unrealizedTally (R : Rules) (v : BattleExchangeVariant) (ap : AttackPossibility)
    (reachabilityMap : BattleHex → List UnitPtr) : List BattleHex → List UnitPtr → Int
  | _, [] => 0
  | hexes, unit :: rest =>
    if R.unitId unit = R.unitId ap.attack.attacker then
      unrealizedTally R v ap reachabilityMap hexes rest
    else if ∀ h ∈ hexes, unit ∉ reachabilityMap h then
      (v.attackerValue (R.unitId unit)).value + unrealizedTally R v ap reachabilityMap hexes rest
    else
      match minElementByFun (positionScore R reachabilityMap hexes unit) hexes with
      | some desiredPosition =>
        unrealizedTally R v ap reachabilityMap (hexes.erase desiredPosition) rest
      | none => unrealizedTally R v ap reachabilityMap hexes rest

/-! ## `BattleExchangeEvaluator` -/

/-- The members of the evaluator: `reachabilityMap` (a `std::map` whose missing entries
read as empty) and `turnOrder`. -/
structure BattleExchangeEvaluator where
  reachabilityMap : BattleHex → List UnitPtr
  turnOrder : List (List UnitPtr)

/-- The valid hexes in the order of the loop
`for(BattleHex hex = BattleHex::TOP_LEFT; hex.isValid(); hex = hex + 1)`. -/
def validHexes (R : Rules) : List BattleHex :=
  (List.range R.BFIELD_SIZE).map fun n => (n : Int)

/-- The value of `reachable` at the end of the body of the hex loop of
`updateReachabilityMap`. -/
def hexReachable (R : Rules) (unitReachability : ReachabilityInfo) (unit : UnitPtr)
    (turn : Nat) (hex : BattleHex) : Bool :=
  let reachable := decide (unitReachability.distances hex ≤ R.Speed unit turn)
  if !reachable && unitReachability.accessibility hex == EAccessibility.ALIVE_STACK then
    match R.battleGetUnitByPos hex with
    | some hexStack =>
      if R.battleMatchOwner unit hexStack false then
        (R.neighbouringTiles hex).any fun neighbor =>
          decide (unitReachability.distances neighbor ≤ R.Speed unit turn)
      else reachable
    | none => reachable
  else reachable

/-- The hex loop of `updateReachabilityMap` for one unit of one turn. -/
def recordUnit (R : Rules) (turn : Nat) (reachabilityMap : BattleHex → List UnitPtr)
    (unit : UnitPtr) : BattleHex → List UnitPtr :=
  let unitReachability := R.getReachability R.newBattle unit
  (validHexes R).foldl
    (fun m hex =>
      if hexReachable R unitReachability unit turn hex then
        Function.update m hex (m hex ++ [unit])
      else m)
    reachabilityMap

/-- The loop over the turns of `updateReachabilityMap`, from turn `turn` on. -/
def recordTurns (R : Rules) : Nat → List (List UnitPtr) → (BattleHex → List UnitPtr) →
    BattleHex → List UnitPtr
  | _, [], m => m
  | turn, turnQueue :: rest, m =>
    recordTurns R (turn + 1) rest (turnQueue.foldl (recordUnit R turn) m)

/-- `BattleExchangeEvaluator::updateReachabilityMap(hb)`. -/
def updateReachabilityMap (R : Rules) (hb : HypotheticBattle) : BattleExchangeEvaluator :=
  let turnOrder := R.battleGetTurnOrder hb
  { turnOrder := turnOrder
    reachabilityMap := recordTurns R 0 turnOrder fun _ => [] }

/-- The hexes `getExchangeUnits` looks at: the defender's hexes, and `ap.from` when the
attack is not shooting. -/
def relevantHexes (R : Rules) (ap : AttackPossibility) : List BattleHex :=
  let hexes := R.getHexes ap.attack.defender
  if !ap.attack.shooting then hexes ++ [ap.fromHex] else hexes

/-- `BattleExchangeEvaluator::getExchangeUnits(ap)`. -/
def getExchangeUnits (R : Rules) (ev : BattleExchangeEvaluator) (ap : AttackPossibility) :
    List UnitPtr :=
  let hexes := relevantHexes R ap
  let allReachableUnits :=
    hexes.foldl (fun all hex => all ++ ev.reachabilityMap hex) ([] : List UnitPtr)
  let allReachableUnits := removeDuplicates allReachableUnits
  if allReachableUnits.length < 2 then []
  else
    ev.turnOrder.foldl
      (fun exchangeUnits turn => exchangeUnits ++ turn.filter fun unit => unit ∈ allReachableUnits)
      ([] : List UnitPtr)

/-- The units that occur in the reachability-map entries of the candidate's relevant
hexes, with repetitions; its `toFinset` is the set of distinct reachable units. -/
def reachableUnits (R : Rules) (ev : BattleExchangeEvaluator) (ap : AttackPossibility) :
    List UnitPtr :=
  (relevantHexes R ap).flatMap ev.reachabilityMap

/-! ## `BattleExchangeEvaluator::calculateExchange` -/

/-- A committed call of `trackAttack`, as the exchange simulation makes it: with the
precomputed candidate, or the generic one with its arguments. -/
inductive TrackedAttack where
  | candidate (ap : AttackPossibility)
  | generic (attacker defender : UnitId) (shooting isOurAttack : Bool)
  deriving DecidableEq, Repr

/-- Whether a simulated attack was made with the generic `trackAttack`. -/
def TrackedAttack.isGeneric : TrackedAttack → Bool
  | TrackedAttack.generic _ _ _ _ => true
  | TrackedAttack.candidate _ => false

/-- The locals of `calculateExchange` that change in its main loop, and the record of the
committed `trackAttack` calls (kept by the model only). -/
structure ExchangeState where
  exchangeBattle : HypotheticBattle
  v : BattleExchangeVariant
  ourStacks : List UnitPtr
  enemyStacks : List UnitPtr
  canUseAp : Bool
  tracked : List TrackedAttack

/-- The body of the first loop of `calculateExchange`: the unit joins the queue of its
side unless it is already there.  The pair is `(ourStacks, enemyStacks)`. -/
def enqueueUnit (R : Rules) (ap : AttackPossibility) (queues : List UnitPtr × List UnitPtr)
    (unit : UnitPtr) : List UnitPtr × List UnitPtr :=
  let isOur := R.battleMatchOwner ap.attack.attacker unit true
  if isOur then
    if unit ∈ queues.1 then queues else (queues.1 ++ [unit], queues.2)
  else
    if unit ∈ queues.2 then queues else (queues.1, queues.2 ++ [unit])

/-- The loop `for(int i = 0; i < totalAttacks; i++)` of `calculateExchange`, with the
number of rounds still to run. -/
def attackLoop (R : Rules) (attacker defender : UnitId) (shooting isOur : Bool) :
    Nat → ExchangeState → ExchangeState
  | 0, s => s
  | n + 1, s =>
    let r := trackAttack R s.v s.exchangeBattle attacker defender shooting isOur false
    let s :=
      { s with
        v := r.v
        exchangeBattle := r.state
        tracked := s.tracked ++ [TrackedAttack.generic attacker defender shooting isOur] }
    if !R.alive (s.exchangeBattle attacker) || !R.alive (s.exchangeBattle defender) then s
    else attackLoop R attacker defender shooting isOur n s

/-- The target an acting unit attacks: the candidate's defender, or for an enemy unit and
after the defender's death the first unit of the opposite queue with the largest
speculative (`evaluateOnly = true`) score.  The speculative calls leave `v` and the
battle as they are, so only their value is used. -/
def selectTarget (R : Rules) (ap : AttackPossibility) (s : ExchangeState) (attacker : UnitId)
    (isOur : Bool) (oppositeQueue : List UnitPtr) : UnitPtr :=
  if !isOur || !R.alive (s.exchangeBattle (R.unitId ap.attack.defender)) then
    (maxElementByFun
      (fun u =>
        (trackAttack R s.v s.exchangeBattle attacker (R.unitId u)
          (R.hbCanShoot s.exchangeBattle (s.exchangeBattle (R.unitId u))) isOur true).score)
      oppositeQueue).getD ap.attack.defender
  else ap.attack.defender

/-- The body of the main loop of `calculateExchange` for one unit of `exchangeUnits`. -/
def exchangeStep (R : Rules) (ap : AttackPossibility) (s : ExchangeState)
    (activeUnit : UnitPtr) : ExchangeState :=
  let isOur := R.battleMatchOwner ap.attack.attacker activeUnit true
  let oppositeQueue := if isOur then s.enemyStacks else s.ourStacks
  let attacker := R.unitId activeUnit
  if !R.alive (s.exchangeBattle attacker) || oppositeQueue.isEmpty then s
  else
    let targetUnit := selectTarget R ap s attacker isOur oppositeQueue
    let defender := R.unitId targetUnit
    let shooting := R.battleCanShoot (s.exchangeBattle attacker)
    let totalAttacks := R.getTotalAttacks (s.exchangeBattle attacker) shooting
    let s :=
      if s.canUseAp && activeUnit == ap.attack.attacker && targetUnit == ap.attack.defender then
        let r := trackAttackAp s.v ap s.exchangeBattle
        { s with
          v := r.v
          exchangeBattle := r.state
          tracked := s.tracked ++ [TrackedAttack.candidate ap] }
      else
        attackLoop R attacker defender shooting isOur totalAttacks.toNat s
    { s with
      canUseAp := false
      ourStacks := s.ourStacks.filter fun u => R.alive (s.exchangeBattle (R.unitId u))
      enemyStacks := s.enemyStacks.filter fun u => R.alive (s.exchangeBattle (R.unitId u)) }

/-- What `calculateExchange` returns, and the committed `trackAttack` calls it made. -/
structure ExchangeOutcome where
  score : Int
  tracked : List TrackedAttack
  melleeAttackers : List UnitPtr

/-- `BattleExchangeEvaluator::calculateExchange(ap)`, together with the record of the
attacks it simulated and the attacker list it hands to `adjustPositions`. -/
def calculateExchangeRun (R : Rules) (ev : BattleExchangeEvaluator) (ap : AttackPossibility) :
    ExchangeOutcome :=
  let ourStacks : List UnitPtr := []
  let enemyStacks : List UnitPtr := [ap.attack.defender]
  let exchangeUnits := getExchangeUnits R ev ap
  if exchangeUnits.isEmpty then { score := 0, tracked := [], melleeAttackers := [] }
  else
    let melleeAttackers := ourStacks
    let melleeAttackers := removeDuplicates melleeAttackers
    let melleeAttackers := melleeAttackers.filter fun u => !(!R.battleCanShoot (R.deref u))
    let queues := exchangeUnits.foldl (enqueueUnit R ap) (ourStacks, enemyStacks)
    let s := exchangeUnits.foldl (exchangeStep R ap)
      { exchangeBattle := R.newBattle
        v := BattleExchangeVariant.init
        ourStacks := queues.1
        enemyStacks := queues.2
        canUseAp := true
        tracked := [] }
    let v := adjustPositions R s.v melleeAttackers ap ev.reachabilityMap
    { score := v.getScore, tracked := s.tracked, melleeAttackers := melleeAttackers }

/-- The locals of `calculateExchange` when its main loop has run over all exchange units,
before `adjustPositions` is called. -/
def simulateExchange (R : Rules) (ev : BattleExchangeEvaluator) (ap : AttackPossibility) :
    ExchangeState :=
  let exchangeUnits := getExchangeUnits R ev ap
  let queues := exchangeUnits.foldl (enqueueUnit R ap) (([] : List UnitPtr), [ap.attack.defender])
  exchangeUnits.foldl (exchangeStep R ap)
    { exchangeBattle := R.newBattle
      v := BattleExchangeVariant.init
      ourStacks := queues.1
      enemyStacks := queues.2
      canUseAp := true
      tracked := [] }

/-- `BattleExchangeEvaluator::calculateExchange(ap)`: the returned score. -/
def calculateExchange (R : Rules) (ev : BattleExchangeEvaluator) (ap : AttackPossibility) : Int :=
  (calculateExchangeRun R ev ap).score

/-! ## `BattleExchangeEvaluator::findBestTarget` -/

/-- The candidates of the active unit (`PotentialTargets`); `bestAction` is the value its
method `bestAction()` returns. -/
structure PotentialTargets where
  possibleAttacks : List AttackPossibility
  bestAction : AttackPossibility

/-- The result of the evaluation (`EvaluationResult`). -/
structure EvaluationResult where
  bestAttack : AttackPossibility
  wait : Bool
  score : Int
  deriving DecidableEq, Repr

/-- Modelled from the spec: the constructor `EvaluationResult(ap)` is declared in
`BattleExchangeVariant.h`, which is not among the sources.  The result starts as the
pre-existing default action with no wait recommendation; its score is `score`. -/
def EvaluationResult.init (ap : AttackPossibility) (score : Int) : EvaluationResult :=
  { bestAttack := ap, wait := false, score := score }

/-- The body of the first loop of `findBestTarget`. -/
def scoreStep (R : Rules) (ev : BattleExchangeEvaluator) (result : EvaluationResult)
    (ap : AttackPossibility) : EvaluationResult :=
  let score := calculateExchange R ev ap
  if score > result.score then { result with score := score, bestAttack := ap } else result

/-- The body of the second loop of `findBestTarget` (the active unit waits). -/
def scoreStepWait (R : Rules) (ev : BattleExchangeEvaluator) (result : EvaluationResult)
    (ap : AttackPossibility) : EvaluationResult :=
  let score := calculateExchange R ev ap
  if score > result.score then { score := score, bestAttack := ap, wait := true } else result

/-- The simulation state after `findBestTarget` has marked the active unit as waiting. -/
def markWaiting (R : Rules) (activeStack : UnitPtr) (hb : HypotheticBattle) : HypotheticBattle :=
  (hb.modify (R.unitId activeStack) fun u => { u with waiting := true }).modify
    (R.unitId activeStack) fun u => { u with waitedThisTurn := true }

/-- What `findBestTarget` leaves behind: the returned result, the evaluator and `hb`. -/
structure FindResult where
  result : EvaluationResult
  evaluator : BattleExchangeEvaluator
  hb : HypotheticBattle

/-- `BattleExchangeEvaluator::findBestTarget(activeStack, targets, hb)`. -/
def findBestTarget (R : Rules) (activeStack : UnitPtr) (targets : PotentialTargets)
    (hb : HypotheticBattle) : FindResult :=
  let result := EvaluationResult.init targets.bestAction (R.defaultScore targets.bestAction)
  let ev := updateReachabilityMap R hb
  let result := targets.possibleAttacks.foldl (scoreStep R ev) result
  if !R.waited (R.deref activeStack) then
    let hb := markWaiting R activeStack hb
    let ev := updateReachabilityMap R hb
    let result := targets.possibleAttacks.foldl (scoreStepWait R ev) result
    { result := result, evaluator := ev, hb := hb }
  else
    { result := result, evaluator := ev, hb := hb }

/-! ## `BattleExchangeEvaluator::checkPositionBlocksOurStacks` -/

/-- The values of `reachable` and `enemyUnit` at the end of the first `if` of the hex
loop of `checkPositionBlocksOurStacks`. -/
def hexBlocked (R : Rules) (turnBattle : HypotheticBattle) (unitReachability : ReachabilityInfo)
    (unit : UnitPtr) (turn : Nat) (hex : BattleHex) : Bool × Bool :=
  let enemyUnit := false
  let reachable := decide (unitReachability.distances hex ≤ R.Speed unit turn)
  if !reachable && unitReachability.accessibility hex == EAccessibility.ALIVE_STACK then
    match R.hbGetUnitByPos turnBattle hex with
    | some hexStack =>
      if R.battleMatchOwner unit hexStack false then
        ((R.neighbouringTiles hex).any fun neighbor =>
          decide (unitReachability.distances neighbor ≤ R.Speed unit turn), true)
      else (reachable, enemyUnit)
    | none => (reachable, enemyUnit)
  else (reachable, enemyUnit)

/-- The hex loop of `checkPositionBlocksOurStacks` for one unit of one turn. -/
def blockingOfUnit (R : Rules) (ev : BattleExchangeEvaluator) (turnBattle : HypotheticBattle)
    (turn : Nat) (unit : UnitPtr) (blockingScore : Int) : Int :=
  let unitReachability := R.getReachability turnBattle unit
  (validHexes R).foldl
    (fun score hex =>
      let r := hexBlocked R turnBattle unitReachability unit turn hex
      if !r.1 && decide (unit ∈ ev.reachabilityMap hex) then
        score + (if r.2 then 100 else 1)
      else score)
    blockingScore

/-- The loop over the turns of `checkPositionBlocksOurStacks`, from turn `turn` on. -/
def blockingOfTurns (R : Rules) (ev : BattleExchangeEvaluator) (activeUnit : UnitPtr)
    (position : BattleHex) : Nat → List (List UnitPtr) → Int → Int
  | _, [], blockingScore => blockingScore
  | turn, turnQueue :: rest, blockingScore =>
    let turnBattle :=
      R.newBattle.modify (R.unitId activeUnit) fun u => { u with position := position }
    blockingOfTurns R ev activeUnit position (turn + 1) rest
      (turnQueue.foldl
        (fun score unit =>
          if R.unitId unit = R.unitId activeUnit || R.battleMatchOwner unit activeUnit false then
            score
          else blockingOfUnit R ev turnBattle turn unit score)
        blockingScore)

/-- `BattleExchangeEvaluator::checkPositionBlocksOurStacks(hb, activeUnit, position)`;
the source does not read `hb`. -/
def checkPositionBlocksOurStacks (R : Rules) (ev : BattleExchangeEvaluator)
    (_hb : HypotheticBattle) (activeUnit : UnitPtr) (position : BattleHex) : Bool :=
  decide (blockingOfTurns R ev activeUnit position 0 ev.turnOrder 0 > 50)

/-- The simulation `checkPositionBlocksOurStacks` builds for each turn: a fresh battle
with the active unit moved to `position`. -/
def movedBattle (R : Rules) (activeUnit : UnitPtr) (position : BattleHex) : HypotheticBattle :=
  R.newBattle.modify (R.unitId activeUnit) fun u => { u with position := position }

/-- The units of a turn queue that `checkPositionBlocksOurStacks` processes: those other
than the active unit that the owner test does not skip. -/
def processedUnits (R : Rules) (activeUnit : UnitPtr) (turnQueue : List UnitPtr) : List UnitPtr :=
  turnQueue.filter fun unit =>
    !(decide (R.unitId unit = R.unitId activeUnit) || R.battleMatchOwner unit activeUnit false)

/-- Whether `hex` is recorded for `unit` in the reachability map and no longer reachable
with the active unit at `position`. -/
def hexLost (R : Rules) (ev : BattleExchangeEvaluator) (activeUnit : UnitPtr)
    (position : BattleHex) (turn : Nat) (unit : UnitPtr) (hex : BattleHex) : Bool :=
  !(hexBlocked R (movedBattle R activeUnit position)
      (R.getReachability (movedBattle R activeUnit position) unit) unit turn hex).1
    && decide (unit ∈ ev.reachabilityMap hex)

/-- Whether `hex` holds a living enemy unit of `unit` (the flag `enemyUnit`). -/
def hexEnemy (R : Rules) (activeUnit : UnitPtr) (position : BattleHex) (turn : Nat)
    (unit : UnitPtr) (hex : BattleHex) : Bool :=
  (hexBlocked R (movedBattle R activeUnit position)
      (R.getReachability (movedBattle R activeUnit position) unit) unit turn hex).2

/-- The number of valid hexes with the property `test turn unit`, summed over the turn
slots from `turn` on and over the processed units of each slot. -/
def countOverTurns (R : Rules) (activeUnit : UnitPtr) (test : Nat → UnitPtr → BattleHex → Bool) :
    Nat → List (List UnitPtr) → Nat
  | _, [] => 0
  | turn, turnQueue :: rest =>
    ((processedUnits R activeUnit turnQueue).map fun unit =>
        ((validHexes R).filter (test turn unit)).length).sum
      + countOverTurns R activeUnit test (turn + 1) rest

/-- The count `E` of lost hexes that hold a living enemy unit. -/
def lostEnemyHexes (R : Rules) (ev : BattleExchangeEvaluator) (activeUnit : UnitPtr)
    (position : BattleHex) : Nat :=
  countOverTurns R activeUnit
    (fun turn unit hex =>
      hexLost R ev activeUnit position turn unit hex && hexEnemy R activeUnit position turn unit hex)
    0 ev.turnOrder

/-- The count `P` of the other lost hexes. -/
def lostOtherHexes (R : Rules) (ev : BattleExchangeEvaluator) (activeUnit : UnitPtr)
    (position : BattleHex) : Nat :=
  countOverTurns R activeUnit
    (fun turn unit hex =>
      hexLost R ev activeUnit position turn unit hex
        && !hexEnemy R activeUnit position turn unit hex)
    0 ev.turnOrder

/-! ## A sample battle

A small rule set in the manner of the engine: every creature has 10 hit points, a stack
is alive while it has health, damage is taken front-first, every attack is estimated at
1 to 19 damage and a melee attack is answered with 0 to 10.  Units with addresses of the
same parity are on the same side. -/

/-- The total health of a stack of the sample battle. -/
def sampleAvailable (u : UnitState) : Int := u.health.firstHPleft + 10 * u.health.fullUnits

/-- Damage in the sample battle, front creature first. -/
def sampleDamage (u : UnitState) (amount : Int) : UnitState :=
  if amount ≥ u.health.firstHPleft then
    let total := sampleAvailable u - (if amount > sampleAvailable u then sampleAvailable u else amount)
    if total ≤ 0 then { u with health := { firstHPleft := 0, fullUnits := 0 } }
    else if total % 10 = 0 then { u with health := { firstHPleft := 10, fullUnits := total / 10 - 1 } }
    else { u with health := { firstHPleft := total % 10, fullUnits := total / 10 } }
  else { u with health := { u.health with firstHPleft := u.health.firstHPleft - amount } }

/-- The rules of the sample battle. -/
def sampleRules : Rules where
  unitId u := u.addr
  alive u := decide (0 < sampleAvailable u)
  ableToRetaliate u := decide (0 < sampleAvailable u) && decide (0 < u.counterAttacks)
  blocksRetaliation _ := false
  canShoot u := decide (0 < u.shots)
  waited u := u.waitedThisTurn
  MaxHealth _ := 10
  getFirstHPleft u := u.health.firstHPleft
  getCount u := u.health.fullUnits + (if 0 < u.health.firstHPleft then 1 else 0)
  getAvailableHealth u := sampleAvailable u
  getTotalAttacks _ _ := 1
  damage := sampleDamage
  afterAttack u ranged counter :=
    { u with
      counterAttacks := if counter then u.counterAttacks - 1 else u.counterAttacks
      shots := if ranged then u.shots - 1 else u.shots }
  battleEstimateDamage _ _ shooting := ((1, 19), if shooting then (0, 0) else (0, 10))
  battleCanShoot u := decide (0 < u.shots)
  hbCanShoot _ u := decide (0 < u.shots)
  battleMatchOwner a b exact := (a.addr % 2 == b.addr % 2) == exact
  battleGetUnitByPos _ := none
  hbGetUnitByPos _ _ := none
  battleGetTurnOrder _ := [[{ addr := 1 }, { addr := 2 }]]
  getReachability _ _ := { distances := fun _ => 0, accessibility := fun _ => EAccessibility.ACCESSIBLE }
  Speed _ _ := 5
  getHexes u := [(u.addr : Int)]
  getSurroundingHexes u := [(u.addr : Int) - 1, (u.addr : Int) + 1]
  occupiedHex _ pos := pos
  doubleWide _ := false
  neighbouringTiles hex := [hex - 1, hex + 1]
  BFIELD_SIZE := 4
  deref _ :=
    { health := { firstHPleft := 10, fullUnits := 0 }, shots := 0, counterAttacks := 1,
      movedThisRound := false, waiting := false, waitedThisTurn := false, position := 0 }
  newBattle _ :=
    { health := { firstHPleft := 10, fullUnits := 0 }, shots := 0, counterAttacks := 1,
      movedThisRound := false, waiting := false, waitedThisTurn := false, position := 0 }
  INEFFECTIVE_SCORE := -1000000
  defaultScore _ := 0

/-- A stack of the sample battle with `fullUnits` untouched creatures behind a front
creature with `firstHPleft` hit points, one counter-attack and no shots. -/
def sampleStack (firstHPleft fullUnits : Int) : UnitState :=
  { health := { firstHPleft := firstHPleft, fullUnits := fullUnits }, shots := 0,
    counterAttacks := 1, movedThisRound := false, waiting := false, waitedThisTurn := false,
    position := 0 }

/-- A simulation state: unit 1 is a stack of two creatures whose front creature has 5 hit
points left, every other unit is a single untouched creature. -/
def sampleBattle : HypotheticBattle := fun id =>
  if id = 1 then sampleStack 5 1 else sampleStack 10 0

/-- A candidate of the sample battle: unit 1 strikes a unit standing on hex 7 from hex 9,
out of the reach of every unit of the turn order. -/
def sampleFarCandidate : AttackPossibility :=
  { attack := { attacker := { addr := 1 }, defender := { addr := 7 }, shooting := false,
                attackerPos := 9 }
    fromHex := 9
    dest := 7
    attackerState := (1, sampleStack 5 1)
    affectedUnits := [(7, sampleStack 0 0)]
    attackValue := 10 }

/-- A ledger of the sample battle: unit 3 has value 7 and was not retaliated against,
unit 5 has value 1 and was. -/
def sampleLedger : BattleExchangeVariant :=
  { dpsScore := 42
    attackerValue := fun id =>
      if id = 3 then { value := 7, isRetalitated := false }
      else if id = 5 then { value := 1, isRetalitated := true }
      else { value := 0, isRetalitated := false } }

/-- A reachability map of the sample battle: units 3 and 5 reach hex 6 and nothing else. -/
def sampleReach : BattleHex → List UnitPtr := fun h =>
  if h = 6 then [{ addr := 3 }, { addr := 5 }] else []

/-- The far candidate made from hex 8, which leaves hex 6 as the only free hex around
its defender. -/
def sampleMeleeCandidate : AttackPossibility := { sampleFarCandidate with fromHex := 8 }

/-- The sample battle with a lookahead of two turns: units 1 and 2 act in both. -/
def sampleTwoTurnRules : Rules :=
  { sampleRules with
    battleGetTurnOrder := fun _ => [[{ addr := 1 }, { addr := 2 }], [{ addr := 1 }, { addr := 2 }]] }

/-- A candidate of the sample battle: unit 1 strikes unit 2 from hex 1; the precomputed
projection leaves the defender with 5 of its 10 hit points. -/
def sampleNearCandidate : AttackPossibility :=
  { attack := { attacker := { addr := 1 }, defender := { addr := 2 }, shooting := false,
                attackerPos := 1 }
    fromHex := 1
    dest := 2
    attackerState := (1, sampleStack 5 1)
    affectedUnits := [(2, sampleStack 5 0)]
    attackValue := 10 }

/-- The sample battle with stacks of three creatures in which unit 2 acts before unit 1. -/
def sampleDefenderFirstRules : Rules :=
  { sampleRules with
    battleGetTurnOrder := fun _ => [[{ addr := 2 }, { addr := 1 }]]
    newBattle := fun _ => sampleStack 10 2 }

/-- C1. A committed attack changes the running score by exactly the value `trackAttack`
returns: the generic overload adds the returned value for an attack of our side and
subtracts it for an attack of the other side, and the overload for the precomputed
candidate adds the returned value. -/
theorem trackAttack_commit_score (R : Rules) (v : BattleExchangeVariant)
    (hb : HypotheticBattle) (attacker defender : UnitId) (shooting : Bool)
    (ap : AttackPossibility) :
    (trackAttack R v hb attacker defender shooting true false).v.dpsScore
        = v.dpsScore + (trackAttack R v hb attacker defender shooting true false).score
      ∧ (trackAttack R v hb attacker defender shooting false false).v.dpsScore
        = v.dpsScore - (trackAttack R v hb attacker defender shooting false false).score
      ∧ (trackAttackAp v ap hb).v.dpsScore = v.dpsScore + (trackAttackAp v ap hb).score := by
  refine ⟨?_, ?_, ?_⟩
  · simp only [trackAttack, commitAttack, commitRetaliation, BattleExchangeVariant.modifyValue,
      Bool.not_false, if_true]
    split_ifs
    all_goals simp only [if_true, sub_zero]
    all_goals ring
  · simp only [trackAttack, commitAttack, commitRetaliation, BattleExchangeVariant.modifyValue,
      Bool.not_false, if_true, Bool.false_eq_true, if_false]
    split_ifs
    all_goals simp only [sub_zero]
    all_goals ring
  · simp [trackAttackAp]

/-- C2. A speculative call (`evaluateOnly = true`) of the generic `trackAttack` leaves
the accumulator (running score and ledger) and the simulation state (health, shots and
counter-attacks of every unit, attacker and defender included) as they were. -/
theorem trackAttack_evaluateOnly_frame (R : Rules) (v : BattleExchangeVariant)
    (hb : HypotheticBattle) (attacker defender : UnitId) (shooting isOurAttack : Bool) :
    (trackAttack R v hb attacker defender shooting isOurAttack true).v = v
      ∧ (trackAttack R v hb attacker defender shooting isOurAttack true).state = hb := by
  simp only [trackAttack, Bool.not_true, Bool.false_eq_true, if_false]
  split_ifs <;> simp

/-- C3. The value returned by the generic `trackAttack` depends on `evaluateOnly`.  In the
sample battle unit 1 strikes unit 2, a single creature with 10 hit points, for the
estimated 10 damage.  The speculative call (`evaluateOnly = true`) finds the defender
alive and subtracts its retaliation, 10 - 5; the committed call (`evaluateOnly = false`)
tests the retaliation after the blow has killed the defender and subtracts none, 10 - 0. -/
theorem trackAttack_score_depends_on_evaluateOnly :
    (trackAttack sampleRules BattleExchangeVariant.init sampleBattle 1 2 false true true).score = 5
      ∧ (trackAttack sampleRules BattleExchangeVariant.init sampleBattle 1 2 false true false).score
        = 10 := by
  constructor <;> decide!

/-! ## `calculateDpsReduce` -/

/-- C4.  The result is not monotone in the damage: against a single creature of the
sample battle whose 7 hit points are left of 10, no damage is valued 9 and one point of
damage is valued 0.  Below the front creature's remaining health the unsigned difference
`damageDealt - getFirstHPleft()` wraps around. -/
theorem calculateDpsReduce_not_monotone :
    calculateDpsReduce sampleRules (sampleStack 10 0) (sampleStack 7 0) 0 = 9
      ∧ calculateDpsReduce sampleRules (sampleStack 10 0) (sampleStack 7 0) 1 = 0 := by
  constructor <;> decide!

/-- C5.  The result for no damage is not 0: against a single creature of the sample
battle with 1 hit point left of 10 it is 5, because the unsigned difference
`damageDealt - getFirstHPleft()` wraps around to `2 ^ 64 - 1`, which is 5 modulo 10. -/
theorem calculateDpsReduce_zero_damage :
    calculateDpsReduce sampleRules (sampleStack 10 0) (sampleStack 1 0) 0 = 5 := by
  decide!

/-! ## `adjustPositions` -/

/-- The test of the loop of `adjustPositions` says that no hex of the pool is reachable. -/
theorem hasReachableHex_eq_false (reachabilityMap : BattleHex → List UnitPtr)
    (hexes : List BattleHex) (unit : UnitPtr) :
    (!hasReachableHex reachabilityMap hexes unit) = true
      ↔ ∀ h ∈ hexes, unit ∉ reachabilityMap h := by
  simp [hasReachableHex]

/-- The tally the loop of `adjustPositions` accumulates is the unrealized tally of the
attackers it runs over, from the hexes it starts with. -/
theorem foldl_positionStep_tally (R : Rules) (v : BattleExchangeVariant)
    (ap : AttackPossibility) (reachabilityMap : BattleHex → List UnitPtr)
    (attackers : List UnitPtr) (st : PositionState) :
    (attackers.foldl (positionStep R v ap reachabilityMap) st).notRealizedDps
      = st.notRealizedDps + unrealizedTally R v ap reachabilityMap st.hexes attackers := by
  induction attackers generalizing st with
  | nil => simp [unrealizedTally]
  | cons unit rest ih =>
    rw [List.foldl_cons, ih, unrealizedTally, positionStep]
    by_cases hid : R.unitId unit = R.unitId ap.attack.attacker
    · simp [hid]
    · by_cases hr : ∀ h ∈ st.hexes, unit ∉ reachabilityMap h
      · have hb := (hasReachableHex_eq_false reachabilityMap st.hexes unit).2 hr
        rw [if_neg hid, if_neg hid, if_pos hb, if_pos hr]
        ring
      · have hb : ¬ (!hasReachableHex reachabilityMap st.hexes unit) = true := fun h =>
          hr ((hasReachableHex_eq_false reachabilityMap st.hexes unit).1 h)
        rw [if_neg hid, if_neg hid, if_neg hb, if_neg hr]
        cases minElementByFun (positionScore R reachabilityMap st.hexes unit) st.hexes <;> rfl

/-- C6. After `adjustPositions` the running score is the ineffective sentinel if the
unrealized tally (the ledger values of the listed attackers, other than the candidate's
attacker, that have no reachable hex left around the defender) is strictly greater than
both `ap.attackValue()` and the ledger value of the candidate's attacker; otherwise the
running score is unchanged. -/
theorem adjustPositions_score (R : Rules) (v : BattleExchangeVariant)
    (attackers : List UnitPtr) (ap : AttackPossibility)
    (reachabilityMap : BattleHex → List UnitPtr) :
    (adjustPositions R v attackers ap reachabilityMap).dpsScore
      = if unrealizedTally R v ap reachabilityMap (freeHexes R ap)
              (boostSort (attackerLess R v) attackers) > ap.attackValue
            ∧ unrealizedTally R v ap reachabilityMap (freeHexes R ap)
              (boostSort (attackerLess R v) attackers)
                > (v.attackerValue (R.unitId ap.attack.attacker)).value
        then R.INEFFECTIVE_SCORE else v.dpsScore := by
  simp only [adjustPositions, positionLoop, foldl_positionStep_tally, zero_add]
  split_ifs <;> rfl

/-! ## `findBestTarget` -/

/-- The first loop of `findBestTarget` never lowers the score. -/
theorem foldl_scoreStep_ge (R : Rules) (ev : BattleExchangeEvaluator)
    (aps : List AttackPossibility) (r : EvaluationResult) :
    r.score ≤ (aps.foldl (scoreStep R ev) r).score := by
  induction aps generalizing r with
  | nil => simp
  | cons ap rest ih =>
    rw [List.foldl_cons]
    refine le_trans ?_ (ih _)
    simp only [scoreStep]
    split_ifs with h
    · exact le_of_lt h
    · exact le_refl _

/-- The first loop of `findBestTarget` reaches the score of every candidate. -/
theorem foldl_scoreStep_ge_mem (R : Rules) (ev : BattleExchangeEvaluator)
    (aps : List AttackPossibility) (r : EvaluationResult) (ap : AttackPossibility)
    (hap : ap ∈ aps) : calculateExchange R ev ap ≤ (aps.foldl (scoreStep R ev) r).score := by
  induction aps generalizing r with
  | nil => simp at hap
  | cons a rest ih =>
    rw [List.foldl_cons]
    rcases List.mem_cons.1 hap with h | h
    · subst h
      refine le_trans ?_ (foldl_scoreStep_ge R ev rest _)
      simp only [scoreStep]
      split_ifs with h
      · exact le_refl _
      · exact not_lt.1 h
    · exact ih _ h

/-- The score the first loop of `findBestTarget` ends with is the score it started with
or the score of a candidate. -/
theorem foldl_scoreStep_attained (R : Rules) (ev : BattleExchangeEvaluator)
    (aps : List AttackPossibility) (r : EvaluationResult) :
    (aps.foldl (scoreStep R ev) r).score = r.score
      ∨ ∃ ap ∈ aps, (aps.foldl (scoreStep R ev) r).score = calculateExchange R ev ap := by
  induction aps generalizing r with
  | nil => simp
  | cons a rest ih =>
    rw [List.foldl_cons]
    rcases ih (scoreStep R ev r a) with h | ⟨ap, hap, h⟩
    · rw [h]
      simp only [scoreStep]
      split_ifs
      · exact Or.inr ⟨a, List.mem_cons_self _ _, rfl⟩
      · exact Or.inl rfl
    · exact Or.inr ⟨ap, List.mem_cons_of_mem _ hap, h⟩

/-- The first loop of `findBestTarget` leaves the wait flag as it is. -/
theorem foldl_scoreStep_wait (R : Rules) (ev : BattleExchangeEvaluator)
    (aps : List AttackPossibility) (r : EvaluationResult) :
    (aps.foldl (scoreStep R ev) r).wait = r.wait := by
  induction aps generalizing r with
  | nil => simp
  | cons a rest ih =>
    rw [List.foldl_cons, ih]
    simp only [scoreStep]
    split_ifs <;> rfl

/-- The second loop of `findBestTarget` never lowers the score. -/
theorem foldl_scoreStepWait_ge (R : Rules) (ev : BattleExchangeEvaluator)
    (aps : List AttackPossibility) (r : EvaluationResult) :
    r.score ≤ (aps.foldl (scoreStepWait R ev) r).score := by
  induction aps generalizing r with
  | nil => simp
  | cons ap rest ih =>
    rw [List.foldl_cons]
    refine le_trans ?_ (ih _)
    simp only [scoreStepWait]
    split_ifs with h
    · exact le_of_lt h
    · exact le_refl _

/-- The second loop of `findBestTarget` reaches the score of every candidate. -/
theorem foldl_scoreStepWait_ge_mem (R : Rules) (ev : BattleExchangeEvaluator)
    (aps : List AttackPossibility) (r : EvaluationResult) (ap : AttackPossibility)
    (hap : ap ∈ aps) : calculateExchange R ev ap ≤ (aps.foldl (scoreStepWait R ev) r).score := by
  induction aps generalizing r with
  | nil => simp at hap
  | cons a rest ih =>
    rw [List.foldl_cons]
    rcases List.mem_cons.1 hap with h | h
    · subst h
      refine le_trans ?_ (foldl_scoreStepWait_ge R ev rest _)
      simp only [scoreStepWait]
      split_ifs with h
      · exact le_refl _
      · exact not_lt.1 h
    · exact ih _ h

/-- The second loop of `findBestTarget` either changes nothing, and then no candidate
beats the score it started with, or it ends with the wait flag set, at a candidate and
the score of that candidate. -/
theorem foldl_scoreStepWait_cases (R : Rules) (ev : BattleExchangeEvaluator)
    (aps : List AttackPossibility) (r : EvaluationResult) :
    (aps.foldl (scoreStepWait R ev) r = r ∧ ∀ ap ∈ aps, calculateExchange R ev ap ≤ r.score)
      ∨ ((aps.foldl (scoreStepWait R ev) r).wait = true
        ∧ (aps.foldl (scoreStepWait R ev) r).bestAttack ∈ aps
        ∧ calculateExchange R ev (aps.foldl (scoreStepWait R ev) r).bestAttack
          = (aps.foldl (scoreStepWait R ev) r).score
        ∧ ∃ ap ∈ aps, r.score < calculateExchange R ev ap) := by
  induction aps generalizing r with
  | nil => simp
  | cons a rest ih =>
    rw [List.foldl_cons]
    by_cases h : calculateExchange R ev a > r.score
    · right
      have hstep : scoreStepWait R ev r a
          = { score := calculateExchange R ev a, bestAttack := a, wait := true } := by
        simp only [scoreStepWait]
        rw [if_pos h]
      rcases ih (scoreStepWait R ev r a) with ⟨heq, _⟩ | ⟨hw, hm, hs, _⟩
      · rw [heq, hstep]
        exact ⟨rfl, List.mem_cons_self _ _, rfl, a, List.mem_cons_self _ _, h⟩
      · exact ⟨hw, List.mem_cons_of_mem _ hm, hs, a, List.mem_cons_self _ _, h⟩
    · have hstep : scoreStepWait R ev r a = r := by
        simp only [scoreStepWait]
        rw [if_neg h]
      rw [hstep]
      rcases ih r with ⟨heq, hle⟩ | ⟨hw, hm, hs, ap, hap, hlt⟩
      · left
        refine ⟨heq, ?_⟩
        intro ap hap
        rcases List.mem_cons.1 hap with h1 | h1
        · subst h1
          exact not_lt.1 h
        · exact hle ap h1
      · exact Or.inr ⟨hw, List.mem_cons_of_mem _ hm, hs, ap, List.mem_cons_of_mem _ hap, hlt⟩

/-- The score after the first loop of `findBestTarget` is the maximum of the score it
started with and the scores of the candidates. -/
theorem foldl_scoreStep_score (R : Rules) (ev : BattleExchangeEvaluator)
    (aps : List AttackPossibility) (r : EvaluationResult) :
    (aps.foldl (scoreStep R ev) r).score
      = (aps.map (calculateExchange R ev)).foldl max r.score := by
  induction aps generalizing r with
  | nil => simp
  | cons a rest ih =>
    rw [List.foldl_cons, ih, List.map_cons, List.foldl_cons]
    congr 1
    simp only [scoreStep]
    split_ifs with h
    · exact (max_eq_right (le_of_lt h)).symm
    · exact (max_eq_left (not_lt.1 h)).symm

/-- C7. The score `findBestTarget` returns is the maximum of the score of the default
result built from `targets.bestAction()` and the `calculateExchange` scores of all
candidates in every pass that is evaluated: it is not below the default score, not
below the score of any candidate in the non-waiting pass, not below the score of any
candidate in the waiting pass when the active unit has not waited, and it is one of
these scores. -/
theorem findBestTarget_score (R : Rules) (activeStack : UnitPtr) (targets : PotentialTargets)
    (hb : HypotheticBattle) :
    R.defaultScore targets.bestAction ≤ (findBestTarget R activeStack targets hb).result.score
      ∧ (∀ ap ∈ targets.possibleAttacks,
          calculateExchange R (updateReachabilityMap R hb) ap
            ≤ (findBestTarget R activeStack targets hb).result.score)
      ∧ (R.waited (R.deref activeStack) = false → ∀ ap ∈ targets.possibleAttacks,
          calculateExchange R (updateReachabilityMap R (markWaiting R activeStack hb)) ap
            ≤ (findBestTarget R activeStack targets hb).result.score)
      ∧ ((findBestTarget R activeStack targets hb).result.score = R.defaultScore targets.bestAction
        ∨ (∃ ap ∈ targets.possibleAttacks,
            (findBestTarget R activeStack targets hb).result.score
              = calculateExchange R (updateReachabilityMap R hb) ap)
        ∨ (R.waited (R.deref activeStack) = false ∧ ∃ ap ∈ targets.possibleAttacks,
            (findBestTarget R activeStack targets hb).result.score
              = calculateExchange R (updateReachabilityMap R (markWaiting R activeStack hb)) ap)) := by
  have h0 := foldl_scoreStep_ge R (updateReachabilityMap R hb) targets.possibleAttacks
    (EvaluationResult.init targets.bestAction (R.defaultScore targets.bestAction))
  have h1 := fun ap hap => foldl_scoreStep_ge_mem R (updateReachabilityMap R hb)
    targets.possibleAttacks
    (EvaluationResult.init targets.bestAction (R.defaultScore targets.bestAction)) ap hap
  have h2 := foldl_scoreStep_attained R (updateReachabilityMap R hb) targets.possibleAttacks
    (EvaluationResult.init targets.bestAction (R.defaultScore targets.bestAction))
  have hinit : (EvaluationResult.init targets.bestAction
      (R.defaultScore targets.bestAction)).score = R.defaultScore targets.bestAction := rfl
  rw [hinit] at h0 h2
  by_cases hw : R.waited (R.deref activeStack) = true
  · have hres : (findBestTarget R activeStack targets hb).result
        = targets.possibleAttacks.foldl (scoreStep R (updateReachabilityMap R hb))
            (EvaluationResult.init targets.bestAction (R.defaultScore targets.bestAction)) := by
      simp [findBestTarget, hw]
    rw [hres]
    refine ⟨h0, h1, ?_, ?_⟩
    · intro hf
      rw [hw] at hf
      exact absurd hf (by decide)
    · rcases h2 with h2 | h2
      · exact Or.inl h2
      · exact Or.inr (Or.inl h2)
  · have hw' : R.waited (R.deref activeStack) = false := by
      cases h : R.waited (R.deref activeStack)
      · rfl
      · exact absurd h hw
    have hres : (findBestTarget R activeStack targets hb).result
        = targets.possibleAttacks.foldl
            (scoreStepWait R (updateReachabilityMap R (markWaiting R activeStack hb)))
            (targets.possibleAttacks.foldl (scoreStep R (updateReachabilityMap R hb))
              (EvaluationResult.init targets.bestAction (R.defaultScore targets.bestAction))) := by
      simp [findBestTarget, hw']
    rw [hres]
    have g0 := foldl_scoreStepWait_ge R (updateReachabilityMap R (markWaiting R activeStack hb))
      targets.possibleAttacks
      (targets.possibleAttacks.foldl (scoreStep R (updateReachabilityMap R hb))
        (EvaluationResult.init targets.bestAction (R.defaultScore targets.bestAction)))
    refine ⟨le_trans h0 g0, fun ap hap => le_trans (h1 ap hap) g0, ?_, ?_⟩
    · intro _ ap hap
      exact foldl_scoreStepWait_ge_mem R _ targets.possibleAttacks _ ap hap
    · rcases foldl_scoreStepWait_cases R
          (updateReachabilityMap R (markWaiting R activeStack hb)) targets.possibleAttacks
          (targets.possibleAttacks.foldl (scoreStep R (updateReachabilityMap R hb))
            (EvaluationResult.init targets.bestAction (R.defaultScore targets.bestAction)))
        with ⟨heq, _⟩ | ⟨_, hm, hs, _⟩
      · rw [heq]
        rcases h2 with h2 | h2
        · exact Or.inl h2
        · exact Or.inr (Or.inl h2)
      · exact Or.inr (Or.inr ⟨hw', _, hm, hs.symm⟩)

/-- C8. `findBestTarget` recommends waiting if and only if the active unit has not
waited and some candidate scores strictly more in the waiting pass than the best score
of the non-waiting pass (the maximum of the default score and the scores of that pass);
the best attack it then returns is a candidate with its score of the waiting pass; and
the wait flag is false when the active unit has already waited. -/
theorem findBestTarget_wait (R : Rules) (activeStack : UnitPtr) (targets : PotentialTargets)
    (hb : HypotheticBattle) :
    ((findBestTarget R activeStack targets hb).result.wait = true
        ↔ R.waited (R.deref activeStack) = false
          ∧ ∃ ap ∈ targets.possibleAttacks,
            (targets.possibleAttacks.map (calculateExchange R (updateReachabilityMap R hb))).foldl
                max (R.defaultScore targets.bestAction)
              < calculateExchange R (updateReachabilityMap R (markWaiting R activeStack hb)) ap)
      ∧ ((findBestTarget R activeStack targets hb).result.wait = true →
          (findBestTarget R activeStack targets hb).result.bestAttack ∈ targets.possibleAttacks
          ∧ calculateExchange R (updateReachabilityMap R (markWaiting R activeStack hb))
              (findBestTarget R activeStack targets hb).result.bestAttack
            = (findBestTarget R activeStack targets hb).result.score)
      ∧ (R.waited (R.deref activeStack) = true →
          (findBestTarget R activeStack targets hb).result.wait = false) := by
  have hscore := foldl_scoreStep_score R (updateReachabilityMap R hb) targets.possibleAttacks
    (EvaluationResult.init targets.bestAction (R.defaultScore targets.bestAction))
  have hwait := foldl_scoreStep_wait R (updateReachabilityMap R hb) targets.possibleAttacks
    (EvaluationResult.init targets.bestAction (R.defaultScore targets.bestAction))
  have hinit : (EvaluationResult.init targets.bestAction
      (R.defaultScore targets.bestAction)).score = R.defaultScore targets.bestAction := rfl
  have hinitw : (EvaluationResult.init targets.bestAction
      (R.defaultScore targets.bestAction)).wait = false := rfl
  rw [hinit] at hscore
  rw [hinitw] at hwait
  by_cases hw : R.waited (R.deref activeStack) = true
  · have hres : (findBestTarget R activeStack targets hb).result
        = targets.possibleAttacks.foldl (scoreStep R (updateReachabilityMap R hb))
            (EvaluationResult.init targets.bestAction (R.defaultScore targets.bestAction)) := by
      simp [findBestTarget, hw]
    rw [hres, hwait]
    simp [hw]
  · have hw' : R.waited (R.deref activeStack) = false := by
      cases h : R.waited (R.deref activeStack)
      · rfl
      · exact absurd h hw
    have hres : (findBestTarget R activeStack targets hb).result
        = targets.possibleAttacks.foldl
            (scoreStepWait R (updateReachabilityMap R (markWaiting R activeStack hb)))
            (targets.possibleAttacks.foldl (scoreStep R (updateReachabilityMap R hb))
              (EvaluationResult.init targets.bestAction (R.defaultScore targets.bestAction))) := by
      simp [findBestTarget, hw']
    rw [hres, ← hscore]
    rcases foldl_scoreStepWait_cases R
        (updateReachabilityMap R (markWaiting R activeStack hb)) targets.possibleAttacks
        (targets.possibleAttacks.foldl (scoreStep R (updateReachabilityMap R hb))
          (EvaluationResult.init targets.bestAction (R.defaultScore targets.bestAction)))
      with ⟨heq, hle⟩ | ⟨hwt, hm, hs, hex⟩
    · rw [heq, hwait]
      refine ⟨⟨fun h => absurd h (by decide), ?_⟩, fun h => absurd h (by decide), fun h => absurd h hw⟩
      rintro ⟨_, ap, hap, hlt⟩
      exact absurd (hle ap hap) (not_le.2 hlt)
    · exact ⟨⟨fun _ => ⟨hw', hex⟩, fun _ => hwt⟩, fun _ => ⟨hm, hs⟩, fun h => absurd h hw⟩

/-! ## `getExchangeUnits` -/

/-- Removing adjacent duplicates keeps every element. -/
theorem mem_destutter'_ne {α : Type} [DecidableEq α] (l : List α) (a x : α) :
    x ∈ List.destutter' (· ≠ ·) a l ↔ x = a ∨ x ∈ l := by
  induction l generalizing a with
  | nil => simp
  | cons b l ih =>
    rw [List.destutter']
    split_ifs with h
    · rw [List.mem_cons, ih, List.mem_cons]
    · have hab : a = b := not_not.1 h
      subst hab
      rw [ih, List.mem_cons]
      tauto

/-- After `std::unique` a list sorted by address has no element twice. -/
theorem nodup_destutter'_of_sorted (l : List UnitPtr) (a : UnitPtr)
    (hs : List.Sorted (fun x y : UnitPtr => x.addr ≤ y.addr) (a :: l)) :
    (List.destutter' (· ≠ ·) a l).Nodup := by
  induction l generalizing a with
  | nil => simp
  | cons b l ih =>
    rw [List.destutter']
    have hs' : List.Sorted (fun x y : UnitPtr => x.addr ≤ y.addr) (b :: l) := hs.of_cons
    split_ifs with h
    · rw [List.nodup_cons]
      refine ⟨?_, ih b hs'⟩
      intro hmem
      rcases (mem_destutter'_ne l b a).1 hmem with hab | hal
      · exact h hab
      · have h1 : a.addr ≤ b.addr := List.rel_of_sorted_cons hs b (List.mem_cons_self _ _)
        have h2 : b.addr ≤ a.addr := List.rel_of_sorted_cons hs' a hal
        apply h
        cases a
        cases b
        simp only [UnitPtr.mk.injEq]
        exact le_antisymm h1 h2
    · have hab : a = b := not_not.1 h
      subst hab
      exact ih a hs'

/-- The units `removeDuplicates` keeps are the units of the vector. -/
theorem mem_removeDuplicates (vec : List UnitPtr) (x : UnitPtr) :
    x ∈ removeDuplicates vec ↔ x ∈ vec := by
  unfold removeDuplicates
  cases hsort : vec.insertionSort (fun a b => a.addr ≤ b.addr) with
  | nil =>
    have : vec = [] := by
      have hp := List.perm_insertionSort (fun a b : UnitPtr => a.addr ≤ b.addr) vec
      rw [hsort] at hp
      exact List.Perm.eq_nil hp.symm
    simp [this]
  | cons a l =>
    rw [List.destutter_cons', mem_destutter'_ne, ← List.mem_cons, ← hsort,
      List.mem_insertionSort]

/-- No unit occurs twice after `removeDuplicates`. -/
theorem nodup_removeDuplicates (vec : List UnitPtr) : (removeDuplicates vec).Nodup := by
  unfold removeDuplicates
  have hs := List.sorted_insertionSort (fun a b : UnitPtr => a.addr ≤ b.addr) vec
  cases hsort : vec.insertionSort (fun a b => a.addr ≤ b.addr) with
  | nil => simp
  | cons a l =>
    rw [hsort] at hs
    rw [List.destutter_cons']
    exact nodup_destutter'_of_sorted l a hs

/-- The size of the vector after `removeDuplicates` is the number of distinct units. -/
theorem length_removeDuplicates (vec : List UnitPtr) :
    (removeDuplicates vec).length = vec.toFinset.card := by
  rw [← List.toFinset_card_of_nodup (nodup_removeDuplicates vec)]
  congr 1
  ext x
  simp [mem_removeDuplicates]

/-- The loop concatenating the reachability-map entries yields the entries in order. -/
theorem foldl_concatenate {α β : Type} (f : α → List β) (l : List α) (init : List β) :
    l.foldl (fun all x => all ++ f x) init = init ++ l.flatMap f := by
  induction l generalizing init with
  | nil => simp
  | cons a l ih => simp [ih]

/-- A unit recorded by the hex loop of `updateReachabilityMap` was in the map before or
is the unit of the loop. -/
theorem mem_recordUnit (R : Rules) (turn : Nat) (m : BattleHex → List UnitPtr)
    (unit u : UnitPtr) (hex : BattleHex) (h : u ∈ recordUnit R turn m unit hex) :
    u ∈ m hex ∨ u = unit := by
  unfold recordUnit at h
  generalize validHexes R = hexes at h
  induction hexes generalizing m with
  | nil => exact Or.inl h
  | cons x rest ih =>
    rw [List.foldl_cons] at h
    rcases ih _ h with h1 | h1
    · split_ifs at h1
      · by_cases hx : hex = x
        · subst hx
          rw [Function.update_same, List.mem_append, List.mem_singleton] at h1
          exact h1
        · rw [Function.update_noteq hx] at h1
          exact Or.inl h1
      · exact Or.inl h1
    · exact Or.inr h1

/-- A unit recorded while a turn queue is processed was in the map before or is in the
queue. -/
theorem mem_foldl_recordUnit (R : Rules) (turn : Nat) (turnQueue : List UnitPtr)
    (m : BattleHex → List UnitPtr) (u : UnitPtr) (hex : BattleHex)
    (h : u ∈ turnQueue.foldl (recordUnit R turn) m hex) : u ∈ m hex ∨ u ∈ turnQueue := by
  induction turnQueue generalizing m with
  | nil => exact Or.inl h
  | cons x rest ih =>
    rw [List.foldl_cons] at h
    rcases ih _ h with h1 | h1
    · rcases mem_recordUnit R turn m x u hex h1 with h2 | h2
      · exact Or.inl h2
      · exact Or.inr (h2 ▸ List.mem_cons_self _ _)
    · exact Or.inr (List.mem_cons_of_mem _ h1)

/-- A unit recorded by the loop over the turns was in the map before or acts in one of
the turns. -/
theorem mem_recordTurns (R : Rules) (turn : Nat) (turns : List (List UnitPtr))
    (m : BattleHex → List UnitPtr) (u : UnitPtr) (hex : BattleHex)
    (h : u ∈ recordTurns R turn turns m hex) : u ∈ m hex ∨ ∃ q ∈ turns, u ∈ q := by
  induction turns generalizing m turn with
  | nil => exact Or.inl h
  | cons q rest ih =>
    rw [recordTurns] at h
    rcases ih _ _ h with h1 | ⟨q', hq', hu⟩
    · rcases mem_foldl_recordUnit R turn q m u hex h1 with h2 | h2
      · exact Or.inl h2
      · exact Or.inr ⟨q, List.mem_cons_self _ _, h2⟩
    · exact Or.inr ⟨q', List.mem_cons_of_mem _ hq', hu⟩

/-- Every unit of the reachability map built by `updateReachabilityMap` acts in a turn
of the turn order built with it. -/
theorem mem_turnOrder_of_mem_reachabilityMap (R : Rules) (hb : HypotheticBattle)
    (u : UnitPtr) (hex : BattleHex)
    (h : u ∈ (updateReachabilityMap R hb).reachabilityMap hex) :
    ∃ q ∈ (updateReachabilityMap R hb).turnOrder, u ∈ q := by
  rcases mem_recordTurns R 0 (R.battleGetTurnOrder hb) (fun _ => []) u hex h with h1 | h1
  · simp at h1
  · exact h1

/-- The units collected by the loop over the turn order: those of the turns that pass
the test, in turn order. -/
theorem mem_foldl_filter {α : Type} (p : α → Bool) (turns : List (List α)) (init : List α)
    (x : α) :
    x ∈ turns.foldl (fun acc turn => acc ++ turn.filter p) init
      ↔ x ∈ init ∨ ∃ q ∈ turns, x ∈ q ∧ p x = true := by
  induction turns generalizing init with
  | nil => simp
  | cons q rest ih =>
    rw [List.foldl_cons, ih, List.mem_append, List.mem_filter]
    constructor
    · rintro ((h | h) | ⟨q', hq', h⟩)
      · exact Or.inl h
      · exact Or.inr ⟨q, List.mem_cons_self _ _, h⟩
      · exact Or.inr ⟨q', List.mem_cons_of_mem _ hq', h⟩
    · rintro (h | ⟨q', hq', h⟩)
      · exact Or.inl (Or.inl h)
      · rcases List.mem_cons.1 hq' with h1 | h1
        · subst h1
          exact Or.inl (Or.inr h)
        · exact Or.inr ⟨q', h1, h⟩

/-- With fewer than two distinct reachable units `getExchangeUnits` returns nothing. -/
theorem getExchangeUnits_of_card_lt (R : Rules) (ev : BattleExchangeEvaluator)
    (ap : AttackPossibility) (h : (reachableUnits R ev ap).toFinset.card < 2) :
    getExchangeUnits R ev ap = [] := by
  unfold getExchangeUnits
  simp only [foldl_concatenate, List.nil_append, length_removeDuplicates]
  exact if_pos h

/-- C9. For the reachability map and turn order built by `updateReachabilityMap`,
`getExchangeUnits` returns an empty sequence if and only if fewer than two distinct
units occur in the reachability-map entries of the candidate's relevant hexes (the
defender's hexes, and `ap.from` when the attack is not shooting). -/
theorem getExchangeUnits_eq_nil_iff (R : Rules) (hb : HypotheticBattle)
    (ap : AttackPossibility) :
    getExchangeUnits R (updateReachabilityMap R hb) ap = []
      ↔ (reachableUnits R (updateReachabilityMap R hb) ap).toFinset.card < 2 := by
  constructor
  · intro hnil
    by_contra hcard
    have hlen : ¬ (removeDuplicates (reachableUnits R (updateReachabilityMap R hb) ap)).length
        < 2 := by
      rw [length_removeDuplicates]
      exact hcard
    unfold getExchangeUnits at hnil
    simp only [foldl_concatenate, List.nil_append] at hnil
    rw [show (relevantHexes R ap).flatMap (updateReachabilityMap R hb).reachabilityMap
        = reachableUnits R (updateReachabilityMap R hb) ap from rfl, if_neg hlen] at hnil
    cases hrd : removeDuplicates (reachableUnits R (updateReachabilityMap R hb) ap) with
    | nil =>
      rw [hrd] at hlen
      exact hlen (by decide)
    | cons u rest =>
      have hu : u ∈ removeDuplicates (reachableUnits R (updateReachabilityMap R hb) ap) := by
        rw [hrd]
        exact List.mem_cons_self _ _
      have hu' := (mem_removeDuplicates _ u).1 hu
      obtain ⟨hex, _, hmem⟩ := List.mem_flatMap.1 hu'
      obtain ⟨q, hq, huq⟩ := mem_turnOrder_of_mem_reachabilityMap R hb u hex hmem
      have hin : u ∈ (updateReachabilityMap R hb).turnOrder.flatMap
          (List.filter fun unit =>
            decide (unit ∈ removeDuplicates (reachableUnits R (updateReachabilityMap R hb) ap))) :=
        List.mem_flatMap.2 ⟨q, hq, List.mem_filter.2 ⟨huq, decide_eq_true hu⟩⟩
      rw [hnil] at hin
      exact List.not_mem_nil _ hin
  · exact getExchangeUnits_of_card_lt R (updateReachabilityMap R hb) ap

/-- C10. When zero or one distinct unit is reachable on the relevant hexes of the
candidate, `getExchangeUnits` returns an empty sequence, `calculateExchange` returns 0
and no attack is simulated. -/
theorem calculateExchange_no_participants (R : Rules) (ev : BattleExchangeEvaluator)
    (ap : AttackPossibility) (h : (reachableUnits R ev ap).toFinset.card < 2) :
    getExchangeUnits R ev ap = [] ∧ calculateExchange R ev ap = 0
      ∧ (calculateExchangeRun R ev ap).tracked = [] := by
  have hnil := getExchangeUnits_of_card_lt R ev ap h
  refine ⟨hnil, ?_, ?_⟩
  · simp [calculateExchange, calculateExchangeRun, hnil]
  · simp [calculateExchangeRun, hnil]

/-- C10 at a concrete input: the far candidate of the sample battle, whose relevant
hexes 7 and 9 are in no entry of the reachability map. -/
theorem calculateExchange_no_participants_witness :
    getExchangeUnits sampleRules (updateReachabilityMap sampleRules sampleBattle)
        sampleFarCandidate = []
      ∧ calculateExchange sampleRules (updateReachabilityMap sampleRules sampleBattle)
        sampleFarCandidate = 0
      ∧ (calculateExchangeRun sampleRules (updateReachabilityMap sampleRules sampleBattle)
        sampleFarCandidate).tracked = [] :=
  calculateExchange_no_participants sampleRules (updateReachabilityMap sampleRules sampleBattle)
    sampleFarCandidate (by decide!)

/-! ## `trackAttack` for a precomputed candidate -/

/-- The copy loop leaves every unit as the last projection listed for it says, and a unit
that is not listed as it was. -/
theorem copyAffected_apply (l : List (UnitId × UnitState)) (state : HypotheticBattle)
    (id : UnitId) :
    copyAffected state l id
      = match l.reverse.find? fun e => e.1 == id with
        | some e => copyProjection (state id) e.2
        | none => state id := by
  induction l generalizing state with
  | nil => rfl
  | cons a rest ih =>
    rw [copyAffected, ih, List.reverse_cons, List.find?_append]
    cases hfind : rest.reverse.find? fun e => e.1 == id with
    | some e =>
      simp only [Option.or_some]
      by_cases ha : id = a.1
      · subst ha
        simp [HypotheticBattle.modify, copyProjection]
      · simp [HypotheticBattle.modify, Function.update_noteq ha]
    | none =>
      by_cases ha : id = a.1
      · subst ha
        simp [HypotheticBattle.modify, copyProjection]
      · have ha' : ¬ a.1 = id := fun h => ha h.symm
        simp [HypotheticBattle.modify, Function.update_noteq ha, ha']

/-- In a list whose unit ids are pairwise distinct the entry found for the id of an entry
is that entry. -/
theorem find?_of_nodup_ids (l : List (UnitId × UnitState)) (hl : (l.map Prod.fst).Nodup)
    (e : UnitId × UnitState) (he : e ∈ l) : (l.find? fun x => x.1 == e.1) = some e := by
  induction l with
  | nil => simp at he
  | cons a rest ih =>
    rw [List.map_cons, List.nodup_cons] at hl
    rcases List.mem_cons.1 he with h | h
    · subst h
      simp
    · have hne : ¬ a.1 = e.1 := by
        intro heq
        exact hl.1 (heq ▸ List.mem_map_of_mem Prod.fst h)
      rw [List.find?_cons_of_neg _ (by simpa using hne)]
      exact ih hl.2 h

/-- C12. After `trackAttack(ap, state)` every unit the candidate holds a projection for
(the affected units and the attacker) has the health, shots, counter-attacks and
moved-this-round flag of that projection and keeps its other members; every unit that is
neither affected nor the attacker is unchanged.  The attacker's projection is always
the one applied to the attacker, and when the unit ids of the projections are pairwise
distinct every listed projection is the one applied to its unit. -/
theorem trackAttackAp_state (v : BattleExchangeVariant) (ap : AttackPossibility)
    (state : HypotheticBattle) :
    (∀ id p, ap.projectionOf id = some p →
        ((trackAttackAp v ap state).state id).health = p.health
        ∧ ((trackAttackAp v ap state).state id).shots = p.shots
        ∧ ((trackAttackAp v ap state).state id).counterAttacks = p.counterAttacks
        ∧ ((trackAttackAp v ap state).state id).movedThisRound = p.movedThisRound
        ∧ ((trackAttackAp v ap state).state id).waiting = (state id).waiting
        ∧ ((trackAttackAp v ap state).state id).waitedThisTurn = (state id).waitedThisTurn
        ∧ ((trackAttackAp v ap state).state id).position = (state id).position)
      ∧ (∀ id, (∀ e ∈ ap.affectedUnits ++ [ap.attackerState], e.1 ≠ id) →
        (trackAttackAp v ap state).state id = state id)
      ∧ ap.projectionOf ap.attackerState.1 = some ap.attackerState.2
      ∧ (((ap.affectedUnits ++ [ap.attackerState]).map Prod.fst).Nodup →
        ∀ e ∈ ap.affectedUnits ++ [ap.attackerState], ap.projectionOf e.1 = some e.2) := by
  have hstate : ∀ id, (trackAttackAp v ap state).state id
      = match (ap.affectedUnits ++ [ap.attackerState]).reverse.find? fun e => e.1 == id with
        | some e => copyProjection (state id) e.2
        | none => state id := fun id => copyAffected_apply _ state id
  refine ⟨?_, ?_, ?_, ?_⟩
  · intro id p hp
    rw [hstate id]
    unfold AttackPossibility.projectionOf at hp
    cases hfind : (ap.affectedUnits ++ [ap.attackerState]).reverse.find? fun e => e.1 == id with
    | none => rw [hfind] at hp; simp at hp
    | some e =>
      rw [hfind] at hp
      simp only [Option.map_some', Option.some.injEq] at hp
      subst hp
      simp [copyProjection]
  · intro id hid
    rw [hstate id]
    have hnone : ((ap.affectedUnits ++ [ap.attackerState]).reverse.find? fun e => e.1 == id)
        = none := by
      rw [List.find?_eq_none]
      intro e he
      have := hid e (List.mem_reverse.1 he)
      simpa using this
    rw [hnone]
  · unfold AttackPossibility.projectionOf
    simp
  · intro hnodup e he
    unfold AttackPossibility.projectionOf
    rw [find?_of_nodup_ids _ (by rw [List.map_reverse]; exact List.nodup_reverse.2 hnodup) e
      (List.mem_reverse.2 he)]
    rfl

/-! ## Retaliation in the generic `trackAttack` -/

/-- C13. The generic `trackAttack` counts no retaliation when the attack is shooting, or
the attacker blocks retaliation, or the defender is not alive or not able to retaliate
when the retaliation is checked (after the damage of a committed call), or the upper
bound of the retaliation range is 0: the returned value is `defenderDpsReduce`, the
state is touched only by the attack itself (the attacker takes no damage), the
accumulator only by the first block, and the attacker's ledger entry keeps its
retaliated mark as it was. -/
theorem trackAttack_no_retaliation (R : Rules) (v : BattleExchangeVariant)
    (hb : HypotheticBattle) (attacker defender : UnitId)
    (shooting isOurAttack evaluateOnly : Bool)
    (h : shooting = true ∨ R.blocksRetaliation (hb attacker) = true
      ∨ R.alive
          ((if evaluateOnly then hb
            else applyAttack R hb attacker defender shooting
              (midpoint (R.battleEstimateDamage (hb attacker) (hb defender) shooting).1))
            defender) = false
      ∨ R.ableToRetaliate
          ((if evaluateOnly then hb
            else applyAttack R hb attacker defender shooting
              (midpoint (R.battleEstimateDamage (hb attacker) (hb defender) shooting).1))
            defender) = false
      ∨ (R.battleEstimateDamage (hb attacker) (hb defender) shooting).2.2 = 0) :
    (trackAttack R v hb attacker defender shooting isOurAttack evaluateOnly).score
        = calculateDpsReduce R (hb attacker) (hb defender)
            (toU64 (midpoint (R.battleEstimateDamage (hb attacker) (hb defender) shooting).1))
      ∧ (trackAttack R v hb attacker defender shooting isOurAttack evaluateOnly).state
        = (if evaluateOnly then hb
            else applyAttack R hb attacker defender shooting
              (midpoint (R.battleEstimateDamage (hb attacker) (hb defender) shooting).1))
      ∧ (trackAttack R v hb attacker defender shooting isOurAttack evaluateOnly).v
        = (if evaluateOnly then v
            else (commitAttack R v hb attacker defender shooting isOurAttack
              (midpoint (R.battleEstimateDamage (hb attacker) (hb defender) shooting).1)
              (calculateDpsReduce R (hb attacker) (hb defender)
                (toU64 (midpoint
                  (R.battleEstimateDamage (hb attacker) (hb defender) shooting).1)))).1)
      ∧ ((trackAttack R v hb attacker defender shooting isOurAttack evaluateOnly).v.attackerValue
          attacker).isRetalitated = (v.attackerValue attacker).isRetalitated := by
  cases evaluateOnly
  · simp only [Bool.false_eq_true, if_false] at h
    simp only [trackAttack, commitAttack, Bool.not_false, if_true, Bool.false_eq_true, if_false]
    rcases h with h | h | h | h | h
    · cases isOurAttack <;> simp [h, BattleExchangeVariant.modifyValue]
    · cases isOurAttack <;> simp [h, BattleExchangeVariant.modifyValue]
    · cases isOurAttack <;> simp [h, BattleExchangeVariant.modifyValue]
    · cases isOurAttack <;> simp [h, BattleExchangeVariant.modifyValue]
    · cases isOurAttack <;> simp [h, BattleExchangeVariant.modifyValue]
  · simp only [if_true] at h
    simp only [trackAttack, Bool.not_true, Bool.false_eq_true, if_false, if_true]
    rcases h with h | h | h | h | h
    · simp [h]
    · simp [h]
    · simp [h]
    · simp [h]
    · simp [h]

/-- C13 at a concrete input: a committed shot of unit 2 at unit 1 in the sample battle. -/
theorem trackAttack_no_retaliation_witness :
    (trackAttack sampleRules BattleExchangeVariant.init sampleBattle 2 1 true true false).score
        = calculateDpsReduce sampleRules (sampleBattle 2) (sampleBattle 1)
            (toU64 (midpoint
              (sampleRules.battleEstimateDamage (sampleBattle 2) (sampleBattle 1) true).1))
      ∧ (trackAttack sampleRules BattleExchangeVariant.init sampleBattle 2 1 true true false).state
        = (if false = true then sampleBattle
            else applyAttack sampleRules sampleBattle 2 1 true
              (midpoint (sampleRules.battleEstimateDamage (sampleBattle 2) (sampleBattle 1) true).1))
      ∧ (trackAttack sampleRules BattleExchangeVariant.init sampleBattle 2 1 true true false).v
        = (if false = true then BattleExchangeVariant.init
            else (commitAttack sampleRules BattleExchangeVariant.init sampleBattle 2 1 true true
              (midpoint (sampleRules.battleEstimateDamage (sampleBattle 2) (sampleBattle 1) true).1)
              (calculateDpsReduce sampleRules (sampleBattle 2) (sampleBattle 1)
                (toU64 (midpoint
                  (sampleRules.battleEstimateDamage (sampleBattle 2) (sampleBattle 1) true).1)))).1)
      ∧ ((trackAttack sampleRules BattleExchangeVariant.init sampleBattle 2 1 true true
          false).v.attackerValue 2).isRetalitated
        = (BattleExchangeVariant.init.attackerValue 2).isRetalitated :=
  trackAttack_no_retaliation sampleRules BattleExchangeVariant.init sampleBattle 2 1 true true
    false (Or.inl rfl)

/-! ## The kill count of `calculateDpsReduce` -/

/-- The kill count for a front creature with `f` hit points left of `M`: none below `f`,
and from `f` on one more for every further `M` points of damage. -/
theorem killCount_eq (d M f : Nat) (hM : 0 < M) (hfM : f ≤ M) :
    d / M + (if d % M ≥ f then 1 else 0) = if d < f then 0 else 1 + (d - f) / M := by
  by_cases hd : d < f
  · have hdM : d < M := lt_of_lt_of_le hd hfM
    rw [if_pos hd, Nat.div_eq_of_lt hdM, Nat.mod_eq_of_lt hdM, if_neg (not_le.2 hd)]
  · rw [if_neg hd]
    have hfd : f ≤ d := not_lt.1 hd
    obtain ⟨e, rfl⟩ : ∃ e, d = f + e := ⟨d - f, by omega⟩
    rw [Nat.add_sub_cancel_left]
    have he := Nat.div_add_mod e M
    have hlt := Nat.mod_lt e hM
    by_cases hwrap : e % M + f < M
    · have hq : (f + e) / M = e / M := by
        rw [show f + e = (e % M + f) + M * (e / M) by omega, Nat.add_mul_div_left _ _ hM,
          Nat.div_eq_of_lt hwrap, zero_add]
      have hr : (f + e) % M = e % M + f := by
        rw [show f + e = (e % M + f) + M * (e / M) by omega, Nat.add_mul_mod_self_left,
          Nat.mod_eq_of_lt hwrap]
      rw [hq, hr, if_pos (by omega)]
      omega
    · have hlt2 : e % M + f - M < M := by omega
      have hq : (f + e) / M = e / M + 1 := by
        rw [show f + e = (e % M + f - M) + M * (e / M + 1) by
          rw [Nat.mul_add]; omega, Nat.add_mul_div_left _ _ hM, Nat.div_eq_of_lt hlt2, zero_add]
      have hr : (f + e) % M = e % M + f - M := by
        rw [show f + e = (e % M + f - M) + M * (e / M + 1) by
          rw [Nat.mul_add]; omega, Nat.add_mul_mod_self_left, Nat.mod_eq_of_lt hlt2]
      rw [hq, hr, if_neg (by omega)]
      omega

/-- Conversion to `uint64_t` keeps a value of the unsigned 64-bit range. -/
theorem toU64_natCast (n : Nat) (hn : n < 2 ^ 64) : toU64 (n : Int) = n := by
  unfold toU64
  have h : ((n : Int)) % 2 ^ 64 = (n : Int) :=
    Int.emod_eq_of_lt (Int.natCast_nonneg n) (by exact_mod_cast hn)
  rw [h, Int.toNat_natCast]

/-- C15. For a defender with `MaxHealth` `M > 0` and `f` hit points left on its front
creature, `1 ≤ f ≤ M`, the kill count `d / M + (d % M >= f ? 1 : 0)` that
`calculateDpsReduce` computes is the number of creatures that die when `d` damage is
dealt front-first: none if `d < f`, otherwise `1 + (d - f) / M`.  It holds for every `d`,
so also for the damage clamped to the available health, and the lower bound on `f` is
not needed. -/
theorem enemiesKilled_eq (R : Rules) (defender : UnitState) (d f : Nat)
    (hf : R.getFirstHPleft defender = (f : Int)) (hM : 0 < R.MaxHealth defender)
    (hfM : f ≤ R.MaxHealth defender) (hrange : R.MaxHealth defender < 2 ^ 64) :
    enemiesKilled R defender d
      = if d < f then 0 else 1 + (d - f) / R.MaxHealth defender := by
  unfold enemiesKilled
  rw [hf, toU64_natCast f (lt_of_le_of_lt hfM hrange)]
  exact killCount_eq d (R.MaxHealth defender) f hM hfM

/-- C15 at a concrete input: 27 damage to a stack of the sample battle whose front
creature has 7 of 10 hit points left kills three creatures. -/
theorem enemiesKilled_eq_witness :
    enemiesKilled sampleRules (sampleStack 7 4) 27
      = if 27 < 7 then 0 else 1 + (27 - 7) / sampleRules.MaxHealth (sampleStack 7 4) :=
  enemiesKilled_eq sampleRules (sampleStack 7 4) 27 7 rfl (by decide) (by decide) (by decide)

/-! ## The rank order of `adjustPositions` -/

/-- C14, as stated, fails.  With the sample ledger the attackers 3 (not retaliated, value
7) and 5 (retaliated, value 1) are processed in the order 5, 3: the retaliated unit
comes first, takes the only free hex, and the value of unit 3 goes to the unrealized
tally. -/
theorem adjustPositions_retaliated_first :
    boostSort (attackerLess sampleRules sampleLedger) [{ addr := 3 }, { addr := 5 }]
        = [{ addr := 5 }, { addr := 3 }]
      ∧ (sampleLedger.attackerValue (sampleRules.unitId { addr := 5 })).isRetalitated = true
      ∧ (sampleLedger.attackerValue (sampleRules.unitId { addr := 3 })).isRetalitated = false
      ∧ positionLoop sampleRules sampleLedger [{ addr := 3 }, { addr := 5 }]
          sampleMeleeCandidate sampleReach = { hexes := [], notRealizedDps := 7 } := by
  decide!

/-- The comparator of `adjustPositions` does not put `b` before `a` exactly when `a` is
retaliated if `b` is, and `a` has the value of `b` at least when their marks agree. -/
theorem attackerLess_eq_false_iff (R : Rules) (v : BattleExchangeVariant) (a b : UnitPtr) :
    attackerLess R v b a = false
      ↔ ((v.attackerValue (R.unitId b)).isRetalitated = true →
          (v.attackerValue (R.unitId a)).isRetalitated = true)
        ∧ ((v.attackerValue (R.unitId a)).isRetalitated
            = (v.attackerValue (R.unitId b)).isRetalitated →
          (v.attackerValue (R.unitId b)).value ≤ (v.attackerValue (R.unitId a)).value) := by
  unfold attackerLess
  cases (v.attackerValue (R.unitId a)).isRetalitated <;>
    cases (v.attackerValue (R.unitId b)).isRetalitated <;> simp

/-- C14, amended.  `adjustPositions` runs its loop over the attackers in the order of
`boost::sort` with its comparator: a permutation of the attackers in which every
attacker whose ledger entry is marked retaliated comes before every attacker whose
entry is not, and among attackers with the same mark an attacker with a larger ledger
value comes before one with a smaller value; hexes are assigned in that order. -/
theorem adjustPositions_order (R : Rules) (v : BattleExchangeVariant)
    (attackers : List UnitPtr) :
    (boostSort (attackerLess R v) attackers).Pairwise
        (fun u1 u2 =>
          ((v.attackerValue (R.unitId u2)).isRetalitated = true →
            (v.attackerValue (R.unitId u1)).isRetalitated = true)
          ∧ ((v.attackerValue (R.unitId u1)).isRetalitated
              = (v.attackerValue (R.unitId u2)).isRetalitated →
            (v.attackerValue (R.unitId u2)).value ≤ (v.attackerValue (R.unitId u1)).value))
      ∧ (boostSort (attackerLess R v) attackers).Perm attackers
      ∧ ∀ (ap : AttackPossibility) (reachabilityMap : BattleHex → List UnitPtr),
        positionLoop R v attackers ap reachabilityMap
          = (boostSort (attackerLess R v) attackers).foldl
              (positionStep R v ap reachabilityMap)
              { hexes := freeHexes R ap, notRealizedDps := 0 } := by
  refine ⟨?_, List.perm_insertionSort _ _, fun _ _ => rfl⟩
  haveI : IsTotal UnitPtr (fun a b => attackerLess R v b a = false) := by
    constructor
    intro a b
    simp only [attackerLess_eq_false_iff]
    cases (v.attackerValue (R.unitId a)).isRetalitated <;>
      cases (v.attackerValue (R.unitId b)).isRetalitated <;> simp <;> omega
  haveI : IsTrans UnitPtr (fun a b => attackerLess R v b a = false) := by
    constructor
    intro a b c
    simp only [attackerLess_eq_false_iff]
    cases (v.attackerValue (R.unitId a)).isRetalitated <;>
      cases (v.attackerValue (R.unitId b)).isRetalitated <;>
        cases (v.attackerValue (R.unitId c)).isRetalitated <;> simp <;> omega
  have hsorted := List.sorted_insertionSort (fun a b => attackerLess R v b a = false) attackers
  exact List.Pairwise.imp (fun {a b} h => (attackerLess_eq_false_iff R v a b).1 h) hsorted

/-! ## The sequence returned by `getExchangeUnits` -/

/-- C17, as stated, fails.  With a lookahead of two turns in which units 1 and 2 both
act, `getExchangeUnits` returns each of them twice, once for every turn. -/
theorem getExchangeUnits_repeats :
    getExchangeUnits sampleTwoTurnRules (updateReachabilityMap sampleTwoTurnRules sampleBattle)
        sampleNearCandidate
      = [{ addr := 1 }, { addr := 2 }, { addr := 1 }, { addr := 2 }] := by
  decide!

/-- The sequence `getExchangeUnits` returns, turn slot by turn slot. -/
theorem getExchangeUnits_eq_flatMap (R : Rules) (ev : BattleExchangeEvaluator)
    (ap : AttackPossibility) :
    getExchangeUnits R ev ap
      = if (reachableUnits R ev ap).toFinset.card < 2 then []
        else ev.turnOrder.flatMap fun turn =>
          turn.filter fun unit => decide (unit ∈ reachableUnits R ev ap) := by
  unfold getExchangeUnits
  simp only [foldl_concatenate, List.nil_append, length_removeDuplicates, mem_removeDuplicates]
  rfl

/-- C17, amended.  The sequence returned by `getExchangeUnits` is empty when fewer than
two distinct units are reachable and otherwise the concatenation, over the turn slots in
their order, of the units of each slot that are reachable; every returned unit occurs
in the reachability-map entry of a relevant hex; and a reachable unit occurs in the
sequence as often as it occurs in the turn order, so more than once when it acts in
more than one of the lookahead turns. -/
theorem getExchangeUnits_turn_order (R : Rules) (ev : BattleExchangeEvaluator)
    (ap : AttackPossibility) :
    getExchangeUnits R ev ap
        = (if (reachableUnits R ev ap).toFinset.card < 2 then []
          else ev.turnOrder.flatMap fun turn =>
            turn.filter fun unit => decide (unit ∈ reachableUnits R ev ap))
      ∧ (∀ u ∈ getExchangeUnits R ev ap,
          ∃ hex ∈ relevantHexes R ap, u ∈ ev.reachabilityMap hex)
      ∧ (∀ u ∈ reachableUnits R ev ap, ¬ (reachableUnits R ev ap).toFinset.card < 2 →
          (getExchangeUnits R ev ap).count u = (ev.turnOrder.map fun turn => turn.count u).sum) := by
  refine ⟨getExchangeUnits_eq_flatMap R ev ap, ?_, ?_⟩
  · intro u hu
    rw [getExchangeUnits_eq_flatMap] at hu
    split_ifs at hu with hcard
    · simp at hu
    · obtain ⟨turn, _, hmem⟩ := List.mem_flatMap.1 hu
      have := (List.mem_filter.1 hmem).2
      exact List.mem_flatMap.1 (of_decide_eq_true this)
  · intro u hu hcard
    rw [getExchangeUnits_eq_flatMap, if_neg hcard, List.count_flatMap]
    congr 1
    apply List.map_congr_left
    intro turn _
    exact List.count_filter (decide_eq_true hu)

/-! ## The attacker list handed to `adjustPositions` -/

/-- For a non-empty exchange `calculateExchange` ends with `adjustPositions` on an empty
attacker list, applied to the accumulator its main loop leaves. -/
theorem calculateExchangeRun_of_ne_nil (R : Rules) (ev : BattleExchangeEvaluator)
    (ap : AttackPossibility) (h : getExchangeUnits R ev ap ≠ []) :
    calculateExchangeRun R ev ap
      = { score := (adjustPositions R (simulateExchange R ev ap).v [] ap ev.reachabilityMap).getScore
          tracked := (simulateExchange R ev ap).tracked
          melleeAttackers := [] } := by
  have hne : (getExchangeUnits R ev ap).isEmpty = false := by
    cases hl : getExchangeUnits R ev ap with
    | nil => exact absurd hl h
    | cons _ _ => rfl
  simp only [calculateExchangeRun, hne, Bool.false_eq_true, if_false]
  rfl

/-- C20. The attacker list `calculateExchange` hands to `adjustPositions` is always
empty, so the loop of `adjustPositions` assigns no hex and adds nothing to the unrealized
tally; the value returned for a non-empty exchange is the running score accumulated by
the main loop, unless `ap.attackValue()` and the ledger value of the candidate's attacker
are both negative, in which case it is `EvaluationResult::INEFFECTIVE_SCORE`. -/
theorem calculateExchange_empty_attackers (R : Rules) (ev : BattleExchangeEvaluator)
    (ap : AttackPossibility) :
    (calculateExchangeRun R ev ap).melleeAttackers = []
      ∧ (∀ v : BattleExchangeVariant, positionLoop R v [] ap ev.reachabilityMap
          = { hexes := freeHexes R ap, notRealizedDps := 0 })
      ∧ calculateExchange R ev ap
        = (if getExchangeUnits R ev ap = [] then 0
          else if ap.attackValue < 0
              ∧ ((simulateExchange R ev ap).v.attackerValue (R.unitId ap.attack.attacker)).value < 0
            then R.INEFFECTIVE_SCORE
          else (simulateExchange R ev ap).v.dpsScore) := by
  by_cases h : getExchangeUnits R ev ap = []
  · refine ⟨?_, fun _ => rfl, ?_⟩
    · simp [calculateExchangeRun, h]
    · simp [calculateExchange, calculateExchangeRun, h]
  · refine ⟨?_, fun _ => rfl, ?_⟩
    · rw [calculateExchangeRun_of_ne_nil R ev ap h]
    · rw [calculateExchange, calculateExchangeRun_of_ne_nil R ev ap h, if_neg h]
      simp only [adjustPositions, positionLoop, boostSort, List.insertionSort, List.foldl_nil,
        BattleExchangeVariant.getScore, gt_iff_lt]
      split_ifs <;> rfl

/-! ## The main loop of `calculateExchange` -/

/-- A unit that is dead or has no opponent left is passed over. -/
theorem exchangeStep_skip (R : Rules) (ap : AttackPossibility) (s : ExchangeState)
    (u : UnitPtr)
    (h : (!R.alive (s.exchangeBattle (R.unitId u))
      || (if R.battleMatchOwner ap.attack.attacker u true then s.enemyStacks
          else s.ourStacks).isEmpty) = true) :
    exchangeStep R ap s u = s := by
  simp only [exchangeStep]
  rw [if_pos h]

/-- The attack loop records generic attacks only. -/
theorem attackLoop_tracked (R : Rules) (attacker defender : UnitId) (shooting isOur : Bool)
    (n : Nat) (s : ExchangeState) :
    ∃ gs, (attackLoop R attacker defender shooting isOur n s).tracked = s.tracked ++ gs
      ∧ ∀ g ∈ gs, g.isGeneric = true := by
  induction n generalizing s with
  | zero => exact ⟨[], by simp [attackLoop], by simp⟩
  | succ n ih =>
    simp only [attackLoop]
    split_ifs
    · exact ⟨[TrackedAttack.generic attacker defender shooting isOur], rfl, by
        simp [TrackedAttack.isGeneric]⟩
    · obtain ⟨gs, hgs, hall⟩ := ih
        { s with
          v := (trackAttack R s.v s.exchangeBattle attacker defender shooting isOur false).v
          exchangeBattle :=
            (trackAttack R s.v s.exchangeBattle attacker defender shooting isOur false).state
          tracked := s.tracked ++ [TrackedAttack.generic attacker defender shooting isOur] }
      refine ⟨TrackedAttack.generic attacker defender shooting isOur :: gs, ?_, ?_⟩
      · rw [hgs]
        simp
      · intro g hg
        rcases List.mem_cons.1 hg with h | h
        · subst h
          rfl
        · exact hall g h

/-- A round of the main loop passes the unit over, or clears `canUseAp` and records
either the candidate attack, which needs `canUseAp`, or generic attacks. -/
theorem exchangeStep_tracked (R : Rules) (ap : AttackPossibility) (s : ExchangeState)
    (u : UnitPtr) :
    exchangeStep R ap s u = s
      ∨ ((exchangeStep R ap s u).canUseAp = false
        ∧ ((s.canUseAp = true
            ∧ (exchangeStep R ap s u).tracked = s.tracked ++ [TrackedAttack.candidate ap])
          ∨ ∃ gs, (exchangeStep R ap s u).tracked = s.tracked ++ gs
            ∧ ∀ g ∈ gs, g.isGeneric = true)) := by
  by_cases hskip : (!R.alive (s.exchangeBattle (R.unitId u))
      || (if R.battleMatchOwner ap.attack.attacker u true then s.enemyStacks
          else s.ourStacks).isEmpty) = true
  · exact Or.inl (exchangeStep_skip R ap s u hskip)
  · right
    simp only [exchangeStep]
    rw [if_neg hskip]
    refine ⟨rfl, ?_⟩
    generalize selectTarget R ap s (R.unitId u) _ _ = targetUnit
    by_cases hcand : (s.canUseAp && u == ap.attack.attacker
        && targetUnit == ap.attack.defender) = true
    · left
      rw [if_pos hcand]
      simp only [Bool.and_eq_true] at hcand
      exact ⟨hcand.1.1, rfl⟩
    · right
      rw [if_neg hcand]
      exact attackLoop_tracked R _ _ _ _ _ s

/-- While `canUseAp` is set nothing has been recorded, and of the recorded attacks only
the first can be the candidate attack. -/
theorem foldl_exchangeStep_tracked (R : Rules) (ap : AttackPossibility)
    (units : List UnitPtr) (s : ExchangeState)
    (hs : (s.canUseAp = true → s.tracked = []) ∧ ∀ t ∈ s.tracked.tail, t.isGeneric = true) :
    ((units.foldl (exchangeStep R ap) s).canUseAp = true →
        (units.foldl (exchangeStep R ap) s).tracked = [])
      ∧ ∀ t ∈ (units.foldl (exchangeStep R ap) s).tracked.tail, t.isGeneric = true := by
  induction units generalizing s with
  | nil => exact hs
  | cons u rest ih =>
    rw [List.foldl_cons]
    apply ih
    rcases exchangeStep_tracked R ap s u with h | ⟨hcan, h | ⟨gs, hgs, hall⟩⟩
    · rw [h]
      exact hs
    · refine ⟨fun hc => ?_, ?_⟩
      · rw [hcan] at hc
        exact absurd hc (by decide)
      · rw [h.2, hs.1 h.1]
        simp
    · refine ⟨fun hc => ?_, ?_⟩
      · rw [hcan] at hc
        exact absurd hc (by decide)
      · rw [hgs]
        intro t ht
        cases htr : s.tracked with
        | nil =>
          rw [htr, List.nil_append] at ht
          exact hall t (List.mem_of_mem_tail ht)
        | cons a l =>
          rw [htr, List.cons_append, List.tail_cons, List.mem_append] at ht
          rcases ht with ht | ht
          · apply hs.2
            rw [htr]
            exact ht
          · exact hall t ht

/-- Every round of the main loop only adds to the record. -/
theorem foldl_exchangeStep_prefix (R : Rules) (ap : AttackPossibility)
    (units : List UnitPtr) (s : ExchangeState) :
    ∃ ts, (units.foldl (exchangeStep R ap) s).tracked = s.tracked ++ ts := by
  induction units generalizing s with
  | nil => exact ⟨[], by simp⟩
  | cons u rest ih =>
    rw [List.foldl_cons]
    obtain ⟨ts, hts⟩ := ih (exchangeStep R ap s u)
    rcases exchangeStep_tracked R ap s u with h | ⟨_, h | ⟨gs, hgs, _⟩⟩
    · rw [h] at hts ⊢
      exact ⟨ts, hts⟩
    · exact ⟨TrackedAttack.candidate ap :: ts, by rw [hts, h.2]; simp⟩
    · exact ⟨gs ++ ts, by rw [hts, hgs]; simp⟩

/-- The first loop of `calculateExchange` never empties the enemy queue. -/
theorem foldl_enqueueUnit_enemy_ne_nil (R : Rules) (ap : AttackPossibility)
    (units : List UnitPtr) (queues : List UnitPtr × List UnitPtr) (h : queues.2 ≠ []) :
    (units.foldl (enqueueUnit R ap) queues).2 ≠ [] := by
  induction units generalizing queues with
  | nil => exact h
  | cons u rest ih =>
    rw [List.foldl_cons]
    apply ih
    simp only [enqueueUnit]
    split_ifs <;> simp [h]

/-- The round of the candidate's attacker while `canUseAp` is set: it is on the
candidate's side and alive, the enemy queue is not empty and the selected target is the
candidate's defender, so the precomputed attack is applied. -/
theorem exchangeStep_candidate (R : Rules) (ap : AttackPossibility) (s : ExchangeState)
    (hcan : s.canUseAp = true)
    (hour : R.battleMatchOwner ap.attack.attacker ap.attack.attacker true = true)
    (halive : R.alive (s.exchangeBattle (R.unitId ap.attack.attacker)) = true)
    (hne : s.enemyStacks ≠ [])
    (htarget : selectTarget R ap s (R.unitId ap.attack.attacker) true s.enemyStacks
      = ap.attack.defender) :
    exchangeStep R ap s ap.attack.attacker
      = { exchangeBattle := (trackAttackAp s.v ap s.exchangeBattle).state
          v := (trackAttackAp s.v ap s.exchangeBattle).v
          ourStacks := s.ourStacks.filter fun u =>
            R.alive ((trackAttackAp s.v ap s.exchangeBattle).state (R.unitId u))
          enemyStacks := s.enemyStacks.filter fun u =>
            R.alive ((trackAttackAp s.v ap s.exchangeBattle).state (R.unitId u))
          canUseAp := false
          tracked := s.tracked ++ [TrackedAttack.candidate ap] } := by
  have hempty : s.enemyStacks.isEmpty = false := by
    cases hq : s.enemyStacks with
    | nil => exact absurd hq hne
    | cons _ _ => rfl
  simp only [exchangeStep, hour, if_true, halive, hempty, Bool.not_true, Bool.or_self,
    Bool.false_eq_true, if_false, htarget, hcan, beq_self_eq_true, Bool.and_self]

/-- The target of the candidate's attacker is the candidate's defender while that
defender is alive. -/
theorem selectTarget_of_alive (R : Rules) (ap : AttackPossibility) (s : ExchangeState)
    (attacker : UnitId) (oppositeQueue : List UnitPtr)
    (h : R.alive (s.exchangeBattle (R.unitId ap.attack.defender)) = true) :
    selectTarget R ap s attacker true oppositeQueue = ap.attack.defender := by
  simp [selectTarget, h]

/-- C16, as stated, fails.  In the sample battle with stacks of three creatures unit 2,
the candidate's defender, acts before unit 1, the candidate's attacker.  When unit 1
takes its turn both are alive, and its attack on unit 2 is simulated with the generic
`trackAttack`: the precomputed candidate attack is never applied. -/
theorem calculateExchange_candidate_not_used :
    getExchangeUnits sampleDefenderFirstRules
        (updateReachabilityMap sampleDefenderFirstRules sampleBattle) sampleNearCandidate
        = [{ addr := 2 }, { addr := 1 }]
      ∧ (calculateExchangeRun sampleDefenderFirstRules
          (updateReachabilityMap sampleDefenderFirstRules sampleBattle) sampleNearCandidate).tracked
        = [TrackedAttack.generic 2 1 false false, TrackedAttack.generic 1 2 false true]
      ∧ sampleDefenderFirstRules.alive
          ((simulateExchange sampleDefenderFirstRules
            (updateReachabilityMap sampleDefenderFirstRules sampleBattle)
            sampleNearCandidate).exchangeBattle 1) = true
      ∧ sampleDefenderFirstRules.alive
          ((simulateExchange sampleDefenderFirstRules
            (updateReachabilityMap sampleDefenderFirstRules sampleBattle)
            sampleNearCandidate).exchangeBattle 2) = true := by
  decide!

/-- C16, amended.  In `calculateExchange` only the first simulated attack can be the
precomputed candidate attack: every later attack, also one of the candidate's attacker
on the candidate's defender, is simulated with the generic `trackAttack`.  When the
candidate's attacker is the first exchange unit, is on the candidate's side and alive,
and the candidate's defender is alive, the first simulated attack is the precomputed
candidate attack. -/
theorem calculateExchange_candidate_first_only (R : Rules) (ev : BattleExchangeEvaluator)
    (ap : AttackPossibility) :
    (∀ t ∈ (calculateExchangeRun R ev ap).tracked.tail, t.isGeneric = true)
      ∧ ∀ rest : List UnitPtr, getExchangeUnits R ev ap = ap.attack.attacker :: rest →
        R.battleMatchOwner ap.attack.attacker ap.attack.attacker true = true →
        R.alive (R.newBattle (R.unitId ap.attack.attacker)) = true →
        R.alive (R.newBattle (R.unitId ap.attack.defender)) = true →
        (calculateExchangeRun R ev ap).tracked.head? = some (TrackedAttack.candidate ap) := by
  constructor
  · by_cases h : getExchangeUnits R ev ap = []
    · simp [calculateExchangeRun, h]
    · rw [calculateExchangeRun_of_ne_nil R ev ap h]
      exact (foldl_exchangeStep_tracked R ap _ _ ⟨fun _ => rfl, by simp⟩).2
  · intro rest hunits hour halive hdef
    have hne : getExchangeUnits R ev ap ≠ [] := by
      rw [hunits]
      exact List.cons_ne_nil _ _
    rw [calculateExchangeRun_of_ne_nil R ev ap hne]
    simp only [simulateExchange, hunits]
    rw [List.foldl_cons (f := exchangeStep R ap)]
    rw [exchangeStep_candidate R ap _ rfl hour halive
      (foldl_enqueueUnit_enemy_ne_nil R ap _ _ (List.cons_ne_nil _ _))
      (selectTarget_of_alive R ap _ _ _ hdef)]
    obtain ⟨ts, hts⟩ := foldl_exchangeStep_prefix R ap rest
      { exchangeBattle := (trackAttackAp BattleExchangeVariant.init ap R.newBattle).state
        v := (trackAttackAp BattleExchangeVariant.init ap R.newBattle).v
        ourStacks := List.filter
          (fun u => R.alive
            ((trackAttackAp BattleExchangeVariant.init ap R.newBattle).state (R.unitId u)))
          (List.foldl (enqueueUnit R ap) ([], [ap.attack.defender])
            (ap.attack.attacker :: rest)).1
        enemyStacks := List.filter
          (fun u => R.alive
            ((trackAttackAp BattleExchangeVariant.init ap R.newBattle).state (R.unitId u)))
          (List.foldl (enqueueUnit R ap) ([], [ap.attack.defender])
            (ap.attack.attacker :: rest)).2
        canUseAp := false
        tracked := [] ++ [TrackedAttack.candidate ap] }
    rw [hts]
    rfl

/-- The hex loop adds 100 for every lost hex with an enemy unit and 1 for every other
lost hex. -/
theorem foldl_blocking (lost enemy : BattleHex → Bool) (hexes : List BattleHex) (score : Int) :
    hexes.foldl
        (fun score hex => if lost hex then score + (if enemy hex then 100 else 1) else score)
        score
      = score + 100 * ((hexes.filter fun hex => lost hex && enemy hex).length : Int)
        + ((hexes.filter fun hex => lost hex && !enemy hex).length : Int) := by
  induction hexes generalizing score with
  | nil => simp
  | cons hex rest ih =>
    rw [List.foldl_cons, ih]
    cases hl : lost hex <;> cases he : enemy hex <;>
      simp [List.filter_cons, hl, he] <;> ring

/-- The hex loop of `checkPositionBlocksOurStacks` for one unit, in counts. -/
theorem blockingOfUnit_eq (R : Rules) (ev : BattleExchangeEvaluator) (activeUnit : UnitPtr)
    (position : BattleHex) (turn : Nat) (unit : UnitPtr) (score : Int) :
    blockingOfUnit R ev (movedBattle R activeUnit position) turn unit score
      = score
        + 100 * (((validHexes R).filter fun hex =>
            hexLost R ev activeUnit position turn unit hex
              && hexEnemy R activeUnit position turn unit hex).length : Int)
        + (((validHexes R).filter fun hex =>
            hexLost R ev activeUnit position turn unit hex
              && !hexEnemy R activeUnit position turn unit hex).length : Int) := by
  rw [← foldl_blocking]
  rfl

/-- The loop over a turn queue of `checkPositionBlocksOurStacks`, in counts. -/
theorem foldl_blockingOfUnit_eq (R : Rules) (ev : BattleExchangeEvaluator)
    (activeUnit : UnitPtr) (position : BattleHex) (turn : Nat) (turnQueue : List UnitPtr)
    (score : Int) :
    turnQueue.foldl
        (fun score unit =>
          if R.unitId unit = R.unitId activeUnit || R.battleMatchOwner unit activeUnit false then
            score
          else blockingOfUnit R ev (movedBattle R activeUnit position) turn unit score)
        score
      = score
        + 100 * ((((processedUnits R activeUnit turnQueue).map fun unit =>
            ((validHexes R).filter fun hex =>
              hexLost R ev activeUnit position turn unit hex
                && hexEnemy R activeUnit position turn unit hex).length).sum : Nat) : Int)
        + ((((processedUnits R activeUnit turnQueue).map fun unit =>
            ((validHexes R).filter fun hex =>
              hexLost R ev activeUnit position turn unit hex
                && !hexEnemy R activeUnit position turn unit hex).length).sum : Nat) : Int) := by
  induction turnQueue generalizing score with
  | nil => simp [processedUnits]
  | cons unit rest ih =>
    rw [List.foldl_cons, ih]
    by_cases hskip : (decide (R.unitId unit = R.unitId activeUnit)
        || R.battleMatchOwner unit activeUnit false) = true
    · have hp : processedUnits R activeUnit (unit :: rest) = processedUnits R activeUnit rest := by
        unfold processedUnits
        rw [List.filter_cons_of_neg]
        rw [hskip]
        decide
      rw [if_pos hskip, hp]
    · have hp : processedUnits R activeUnit (unit :: rest)
          = unit :: processedUnits R activeUnit rest := by
        unfold processedUnits
        rw [List.filter_cons_of_pos]
        rw [Bool.not_eq_true] at hskip
        rw [hskip]
        rfl
      rw [if_neg hskip, blockingOfUnit_eq, hp]
      simp only [List.map_cons, List.sum_cons, Nat.cast_add]
      ring

/-- The loop over the turns of `checkPositionBlocksOurStacks`, in counts. -/
theorem blockingOfTurns_eq (R : Rules) (ev : BattleExchangeEvaluator) (activeUnit : UnitPtr)
    (position : BattleHex) (turn : Nat) (turns : List (List UnitPtr)) (score : Int) :
    blockingOfTurns R ev activeUnit position turn turns score
      = score
        + 100 * ((countOverTurns R activeUnit
            (fun turn unit hex =>
              hexLost R ev activeUnit position turn unit hex
                && hexEnemy R activeUnit position turn unit hex) turn turns : Nat) : Int)
        + ((countOverTurns R activeUnit
            (fun turn unit hex =>
              hexLost R ev activeUnit position turn unit hex
                && !hexEnemy R activeUnit position turn unit hex) turn turns : Nat) : Int) := by
  induction turns generalizing turn score with
  | nil => simp [blockingOfTurns, countOverTurns]
  | cons turnQueue rest ih =>
    rw [blockingOfTurns, ih]
    have h := foldl_blockingOfUnit_eq R ev activeUnit position turn turnQueue score
    unfold movedBattle at h
    rw [h]
    simp only [countOverTurns, Nat.cast_add]
    ring

/-- C18. `checkPositionBlocksOurStacks` returns true if and only if `100 * E + P > 50`,
where over all turn slots and all processed units `E` counts the hexes recorded for the
unit in the reachability map that are no longer reachable and hold a living enemy unit
of it, and `P` counts the other recorded hexes that are no longer reachable.  So it
returns false when no recorded hex is lost and true as soon as one enemy-occupied hex is
lost. -/
theorem checkPositionBlocksOurStacks_iff (R : Rules) (ev : BattleExchangeEvaluator)
    (hb : HypotheticBattle) (activeUnit : UnitPtr) (position : BattleHex) :
    (checkPositionBlocksOurStacks R ev hb activeUnit position = true
        ↔ 100 * lostEnemyHexes R ev activeUnit position + lostOtherHexes R ev activeUnit position
          > 50)
      ∧ (lostEnemyHexes R ev activeUnit position = 0 →
          lostOtherHexes R ev activeUnit position = 0 →
          checkPositionBlocksOurStacks R ev hb activeUnit position = false)
      ∧ (1 ≤ lostEnemyHexes R ev activeUnit position →
          checkPositionBlocksOurStacks R ev hb activeUnit position = true) := by
  have hiff : checkPositionBlocksOurStacks R ev hb activeUnit position = true
      ↔ 100 * lostEnemyHexes R ev activeUnit position + lostOtherHexes R ev activeUnit position
        > 50 := by
    unfold checkPositionBlocksOurStacks lostEnemyHexes lostOtherHexes
    rw [blockingOfTurns_eq, decide_eq_true_iff]
    constructor
    · intro h
      have : (50 : Int) < ((100 * countOverTurns R activeUnit
          (fun turn unit hex =>
            hexLost R ev activeUnit position turn unit hex
              && hexEnemy R activeUnit position turn unit hex) 0 ev.turnOrder
          + countOverTurns R activeUnit
          (fun turn unit hex =>
            hexLost R ev activeUnit position turn unit hex
              && !hexEnemy R activeUnit position turn unit hex) 0 ev.turnOrder : Nat) : Int) := by
        push_cast
        linarith
      exact_mod_cast this
    · intro h
      have : (50 : Int) < ((100 * countOverTurns R activeUnit
          (fun turn unit hex =>
            hexLost R ev activeUnit position turn unit hex
              && hexEnemy R activeUnit position turn unit hex) 0 ev.turnOrder
          + countOverTurns R activeUnit
          (fun turn unit hex =>
            hexLost R ev activeUnit position turn unit hex
              && !hexEnemy R activeUnit position turn unit hex) 0 ev.turnOrder : Nat) : Int) := by
        exact_mod_cast h
      push_cast at this
      linarith
  refine ⟨hiff, ?_, ?_⟩
  · intro hE hP
    cases hres : checkPositionBlocksOurStacks R ev hb activeUnit position
    · rfl
    · have := hiff.1 hres
      omega
  · intro hE
    exact hiff.2 (by omega)

/-! ## Rounding to `double` -/

end BattleAI
